import Mathlib

/-!
# modplay2: a shallow embedding of `main.cpp`

The module loader (`ModulePlayer`), the pattern-cell decoder, the tag registry, the period
table (`PeriodCorrector`), `TrackerState::SamplesPerTick`, `playModule` and `PlayOneTick` of
`src/main.cpp` are given as Lean definitions (Part I); Part II proves what they compute.

Conventions of the embedding

* Machine integers are `Nat` with an explicit `% 2 ^ w` wherever the C++ type truncates
  (`uint32_t`, `uint8_t`, the bit-fields `: 12` and `: 4`).
* `std::fstream` is a byte list with a read position and the two state bits the program
  can observe through `good()`.
* Storage the program never initialises (`Module mod`, `new Sample[n]`,
  `unsigned short periods[36][36]`) is a parameter of the embedding: the definitions take
  the initial contents as an argument and the theorems quantify over it.
* `double` arithmetic in `GeneratePTPeriodTable` is exact arithmetic on the numbers
  `(num / den) * 2 ^ (exp / 96)`, which are closed under every operation the generator
  performs; `(unsigned short)(x + 0.5)` is `floor (x + 1/2)`. Part II relates these
  operations to the real numbers (`Real96.Denotes`, `roundU16_spec`).
* `double` arithmetic in `SamplesPerTick` is IEEE 754 binary64 arithmetic: a `double` is
  the rational number it denotes, and every conversion and operation returns its exact
  result rounded to the nearest binary64 number, ties to even (`roundBinary64`).
* A run that leaves an array (`rows[64]`), or whose `new` throws, ends in `Abort`; loops
  whose exit the source does not bound take a step budget `fuel`.
-/

namespace Modplay

/-! ## Part I. Definitions -/

/-! ### Integer conversions -/

/-- Conversion of an `int` to `unsigned long` / `uint64_t` (`-1` becomes `2 ^ 64 - 1`). -/
def toU64 (x : Int) : Nat := (x % 2 ^ 64).toNat

/-- Conversion of an `int` to `uint8_t`. -/
def toU8 (x : Int) : Nat := (x % 2 ^ 8).toNat

/-- Conversion of an `int` to a (signed) `char`, as done by `std::string::operator+=`. -/
def toChar (x : Int) : Int := (x + 128) % 256 - 128

/-! ### `std::fstream` -/

/-- One byte of a file. -/
abbrev Byte := Fin 256

/-- The part of a `std::fstream` opened for binary input that `main.cpp` observes. -/
structure FStream where
  data : List Byte
  pos : Nat
  eofbit : Bool
  failbit : Bool
deriving DecidableEq, Repr

namespace FStream

/-- A freshly opened stream over the bytes of a file. -/
def ofBytes (bs : List Byte) : FStream :=
  { data := bs, pos := 0, eofbit := false, failbit := false }

/-- The result of `good()`: no state bit is set. -/
def good (s : FStream) : Bool := !s.eofbit && !s.failbit

/-- The call `get()`: returns the next byte, or `EOF = -1` with `eofbit | failbit` set when no
byte is left; on a stream that is not good it sets `failbit` and returns `EOF`. -/
def get (s : FStream) : Int × FStream :=
  if s.good then
    match s.data.get? s.pos with
    | some b => ((b.val : Int), { s with pos := s.pos + 1 })
    | none => (-1, { s with eofbit := true, failbit := true })
  else (-1, { s with failbit := true })

/-- The call `seekg(p)`: clears `eofbit`, then moves the read position unless the stream has
failed. A file stream may be positioned past its end. -/
def seekg (s : FStream) (p : Nat) : FStream :=
  if s.failbit then { s with eofbit := false } else { s with eofbit := false, pos := p }

/-- The call `read(buf, n)`: the bytes stored (at most `n`); `eofbit | failbit` are set when
fewer than `n` are available. -/
def read (s : FStream) (n : Nat) : List Byte × FStream :=
  if s.good then
    let got := (s.data.drop s.pos).take n
    if got.length = n then (got, { s with pos := s.pos + n })
    else (got, { s with pos := s.pos + got.length, eofbit := true, failbit := true })
  else ([], { s with failbit := true })

/-- The results of `k` successive calls of `get()`, in order, and the stream after them. -/
def getN : Nat → FStream → List Int × FStream
  | 0, s => ([], s)
  | k + 1, s =>
    let r := s.get
    let rest := getN k r.2
    (r.1 :: rest.1, rest.2)

end FStream

/-! ### Pattern cells (`struct Note`, the cell loop of `LoadPatternsAndOrders`) -/

/-- The `struct Note`: `period : 12`, `sample` (`uint8_t`), `effect : 4`, `argument` (`uint8_t`). -/
structure Note where
  period : Nat
  sample : Nat
  effect : Nat
  argument : Nat
deriving DecidableEq, Repr

/-- The four statements `note |= (unsigned long)moduledata.get() << k` on `uint32_t note = 0`,
given the four results of `get()`. -/
def packCell (g0 g1 g2 g3 : Int) : Nat :=
  let note := 0
  let note := (note ||| (toU64 g0 <<< 24) % 2 ^ 64) % 2 ^ 32
  let note := (note ||| (toU64 g1 <<< 16) % 2 ^ 64) % 2 ^ 32
  let note := (note ||| (toU64 g2 <<< 8) % 2 ^ 64) % 2 ^ 32
  let note := (note ||| toU64 g3) % 2 ^ 32
  note

/-- The 32-bit word of a cell whose four bytes are all present. -/
def cellWord (b0 b1 b2 b3 : Byte) : Nat :=
  packCell (b0.val : Int) (b1.val : Int) (b2.val : Int) (b3.val : Int)

/-- The four assignments to `stnote`, with the grouping C++ gives them: `>>` binds tighter
than `&`, and `&` tighter than `|`, so the constant is shifted before it is used as a mask.
```
stnote.period   = (note & 0x0F000000 >> 12) | (note & 0x00FF0000) >> 16;
stnote.effect   = (note & 0x00000F00 >> 8);
stnote.argument = note & 0x000000FF;
stnote.sample   = ((note & 0xF0000000) >> 24) & (note & 0x0000F000) >> 12;
```
-/
def decodeNote (note : Nat) : Note :=
  { period := ((note &&& (0x0F000000 >>> 12)) ||| ((note &&& 0x00FF0000) >>> 16)) % 2 ^ 12
    effect := (note &&& (0x00000F00 >>> 8)) % 2 ^ 4
    argument := (note &&& 0x000000FF) % 2 ^ 8
    sample := (((note &&& 0xF0000000) >>> 24) &&& ((note &&& 0x0000F000) >>> 12)) % 2 ^ 8 }

/-- The period the ProTracker cell layout stores in a cell: the low nibble of byte 0 and
byte 1 (`((note & 0x0F000000) >> 16) | ((note & 0x00FF0000) >> 16)`). -/
def canonicalPeriod (note : Nat) : Nat :=
  ((note &&& 0x0F000000) >>> 16) ||| ((note &&& 0x00FF0000) >>> 16)

/-- The sample index the ProTracker cell layout stores in a cell: the high nibble of byte 0
and the high nibble of byte 2. -/
def canonicalSample (b0 b2 : Byte) : Nat := (b0.val &&& 0xF0) ||| (b2.val >>> 4)

/-- The effect command the ProTracker cell layout stores in a cell: bits 8-11 of the word. -/
def canonicalEffect (note : Nat) : Nat := (note &&& 0x00000F00) >>> 8

/-! ### The module (`struct Sample`, `Row`, `Pattern`, `Module`) -/

/-- A C++ `char` as an element of a Lean `String`: the character whose code is the value of
the `char` modulo 256. -/
def charOf (c : Int) : Char := Char.ofNat (c % 256).toNat

/-- The `struct Sample`. `length`, `loopstart` and `looplength` are `uint64_t`, `finetune` is
a 4-bit field, `volume` a `uint8_t`; `data` is the buffer `LoadSampleData` fills. -/
structure Sample where
  name : String
  length : Nat
  finetune : Nat
  volume : Nat
  loopstart : Nat
  looplength : Nat
  data : List Byte
deriving DecidableEq, Repr

/-- The `struct Row`: `notes` holds the notes stored so far in the `new Note[nchannels]`. -/
structure Row where
  nchannels : Nat
  notes : List Note
deriving DecidableEq, Repr

/-- The `struct Pattern`: `rows` holds the rows stored so far in the `new Row[64]`. -/
structure Pattern where
  nrows : Nat
  rows : List Row
deriving DecidableEq, Repr

/-- The `struct Module`. `orders` holds the order bytes stored so far in the
`new uint8_t[norders]`, `samples` the `new Sample[nsamples]`, `patterns` the patterns loaded
so far. -/
structure Module where
  name : String
  samples : List Sample
  nsamples : Nat
  npatterns : Nat
  norders : Nat
  orders : List Nat
  patterns : List Pattern
deriving DecidableEq, Repr

/-- The `enum ModuleLoadState`. -/
inductive ModuleLoadState where
  | LOAD_FAILED_HEADER
  | LOAD_FAILED_PATTERN
  | LOAD_FAILED_OTHER
  | LOAD_FAILED_SAMPLE
  | LOAD_OK
deriving DecidableEq, Repr

/-- The `enum Verbosity`. -/
inductive Verbosity where
  | NONE
  | MESSAGE
  | DEBUG
deriving DecidableEq, Repr

/-- The ways a run of the loader ends without returning: an access outside an array, an
allocation `new T[n]` that throws, or the step budget of the embedding running out. -/
inductive Abort where
  | outOfBounds
  | badAlloc
  | outOfFuel
deriving DecidableEq, Repr

/-- The contents of the storage the loader reads before writing it: the fields of the member
`Module mod` (never initialised) and the elements of `new Sample[n]`. -/
structure Uninit where
  mod : Module
  sample : Nat → Sample

/-! ### `ModulePlayer::LoadModuleHeader` -/

/-- The loop `for(char c : signature) if((c < 32) && (c > 126)) { soundtracker = true; break; }`. -/
def signatureIsSoundtracker (signature : List Int) : Bool :=
  signature.any (fun c => decide (c < 32) && decide (c > 126))

/-- The assignments `name = moduledata.get()` of a read loop: the string ends up holding the
single character read last. -/
def assignLastChar (name : String) (gs : List Int) : String :=
  gs.foldl (fun _ g => String.singleton (charOf (toChar g))) name

/-- `LoadModuleHeader`: the returned flag (`true` for 1), the stream and the module. -/
def LoadModuleHeader (md : FStream) (mod : Module) : Bool × FStream × Module :=
  let md := md.seekg 1080
  let sig := md.getN 4
  let signature := sig.1.map toChar
  let md := sig.2
  if !md.good then (false, md, mod)
  else
    let soundtracker := signatureIsSoundtracker signature
    let md := md.seekg 0
    let nm := md.getN 20
    let mod := { mod with name := assignLastChar mod.name nm.1 }
    let md := nm.2
    if !md.good then (false, md, mod)
    else (true, md, { mod with nsamples := if soundtracker then 15 else 31 })

/-! ### `ModulePlayer::LoadSampleHeaders` -/

/-- The body of the loop of `LoadSampleHeaders` up to the test of `good()`: the 30 bytes of
one sample header are read into `smp`, whose previous contents the `|=` statements keep. -/
def readSampleHeader (md : FStream) (smp : Sample) : Sample × FStream :=
  let nm := md.getN 22
  let smp := { smp with name := assignLastChar smp.name nm.1 }
  let md := nm.2
  let g := md.get
  let smp := { smp with length := smp.length ||| (toU64 g.1 <<< 8) % 2 ^ 64 }
  let g := g.2.get
  let smp := { smp with length := smp.length ||| toU64 g.1 }
  let smp := { smp with length := (smp.length * 2) % 2 ^ 64 }
  let g := g.2.get
  let smp := { smp with finetune := (g.1 % 2 ^ 4).toNat }
  let g := g.2.get
  let smp := { smp with volume := toU8 g.1 }
  let g := g.2.get
  let smp := { smp with loopstart := smp.loopstart ||| (toU64 g.1 <<< 8) % 2 ^ 64 }
  let g := g.2.get
  let smp := { smp with loopstart := smp.loopstart ||| toU64 g.1 }
  let smp := { smp with loopstart := (smp.loopstart * 2) % 2 ^ 64 }
  let g := g.2.get
  let smp := { smp with looplength := smp.looplength ||| (toU64 g.1 <<< 8) % 2 ^ 64 }
  let g := g.2.get
  let smp := { smp with looplength := smp.looplength ||| toU64 g.1 }
  let smp := { smp with looplength := (smp.looplength * 2) % 2 ^ 64 }
  (smp, g.2)

/-- The loop `for(i = 0; i < mod.nsamples; i++)` of `LoadSampleHeaders`, from index `i` with
`k` iterations to go. -/
def sampleHeaderLoop : Nat → Nat → FStream → List Sample → Bool × FStream × List Sample
  | 0, _, md, samples => (true, md, samples)
  | k + 1, i, md, samples =>
    match samples.get? i with
    | none => (true, md, samples)
    | some smp =>
      let r := readSampleHeader md smp
      let samples := samples.set i r.1
      if !r.2.good then (false, r.2, samples)
      else sampleHeaderLoop k (i + 1) r.2 samples

/-- `LoadSampleHeaders`: `new Sample[mod.nsamples]` holds the indeterminate samples
`u.sample 0 ..`, then each header is read. -/
def LoadSampleHeaders (u : Uninit) (md : FStream) (mod : Module) : Bool × FStream × Module :=
  let samples := (List.range mod.nsamples).map u.sample
  let r := sampleHeaderLoop mod.nsamples 0 md samples
  (r.1, r.2.1, { mod with samples := r.2.2 })

/-! ### The tag registry (`struct TrackerQuirks`, `std::map<std::string, TrackerQuirks>`) -/

/-- The `struct TrackerQuirks`; the default constructor leaves the member initialisers
`nchannels = 4` and `effectquirks = 0`. -/
structure TrackerQuirks where
  nchannels : Nat := 4
  effectquirks : Nat := 0
deriving DecidableEq, Repr

/-- A `std::map<std::string, TrackerQuirks>`: a list of entries with distinct keys. -/
abbrev QuirkMap := List (String × TrackerQuirks)

/-- The statement `m[key] = value`. -/
def QuirkMap.assign : QuirkMap → String → TrackerQuirks → QuirkMap
  | [], key, value => [(key, value)]
  | (k, v) :: rest, key, value =>
    if k = key then (k, value) :: rest else (k, v) :: QuirkMap.assign rest key value

/-- The expression `m[key]`: the mapped value, and the map, into which a default-constructed
`TrackerQuirks` has been inserted when the key was absent. -/
def QuirkMap.index : QuirkMap → String → TrackerQuirks × QuirkMap
  | [], key => ({}, [(key, {})])
  | (k, v) :: rest, key =>
    if k = key then (v, (k, v) :: rest)
    else
      let r := QuirkMap.index rest key
      (r.1, (k, v) :: r.2)

/-- `GenerateFastAndTakeTrackerChannelDefinitions`: `for(int i = 10; i < 33; i++)`, and for
even `i` the two assignments under `std::to_string(i) + "CN"` and `std::to_string(i) + "CH"`. -/
def GenerateFastAndTakeTrackerChannelDefinitions (quirks : QuirkMap) : QuirkMap :=
  (List.range' 10 23).foldl
    (fun quirks i =>
      if i % 2 = 0 then
        let quirks := quirks.assign (toString i ++ "CN") { nchannels := i, effectquirks := 0 }
        quirks.assign (toString i ++ "CH") { nchannels := i, effectquirks := 0 }
      else quirks)
    quirks

/-- The map `tag` as `LoadPatternsAndOrders` builds it before the lookup `tag[sampletag]`. -/
def tagRegistry : QuirkMap :=
  let tag : QuirkMap := []
  let tag := tag.assign "6CHN" { nchannels := 6, effectquirks := 0 }
  let tag := tag.assign "8CHN" { nchannels := 8, effectquirks := 0 }
  let tag := tag.assign "OCTA" { nchannels := 8, effectquirks := 0 }
  let tag := tag.assign "OKTA" { nchannels := 8, effectquirks := 0 }
  let tag := tag.assign "CD81" { nchannels := 8, effectquirks := 0 }
  let tag := tag.assign "TDZ1" { nchannels := 1, effectquirks := 0 }
  let tag := tag.assign "TDZ2" { nchannels := 2, effectquirks := 0 }
  let tag := tag.assign "TDZ3" { nchannels := 3, effectquirks := 0 }
  let tag := tag.assign "5CHN" { nchannels := 5, effectquirks := 0 }
  let tag := tag.assign "7CHN" { nchannels := 7, effectquirks := 0 }
  let tag := tag.assign "9CHN" { nchannels := 9, effectquirks := 0 }
  GenerateFastAndTakeTrackerChannelDefinitions tag

/-- The lookup `tag[sampletag]` of `LoadPatternsAndOrders`. -/
def resolveTag (sampletag : String) : TrackerQuirks := (tagRegistry.index sampletag).1

/-- The eleven tags `LoadPatternsAndOrders` registers one by one. -/
def staticTags : List String :=
  ["6CHN", "8CHN", "OCTA", "OKTA", "CD81", "TDZ1", "TDZ2", "TDZ3", "5CHN", "7CHN", "9CHN"]

/-- A registered tag, in the words of the specification: one of the eleven static tags, or
the decimal digits of an even `N` with `10 ≤ N ≤ 32` followed by `CN` or by `CH`. -/
def IsRegisteredTag (s : String) : Prop :=
  s ∈ staticTags ∨
    ∃ N : Nat, 10 ≤ N ∧ N ≤ 32 ∧ N % 2 = 0 ∧ (s = toString N ++ "CN" ∨ s = toString N ++ "CH")

/-! ### `ModulePlayer::LoadPatternsAndOrders` -/

/-- The loop `for(i = 0; i < 128; i++)` over the order list, from index `i` with `k`
iterations to go: an index below `norders` stores the byte in `orders`, any other index
feeds the byte into `npatterns`. -/
def orderLoop : Nat → Nat → FStream → Module → FStream × Module
  | 0, _, md, mod => (md, mod)
  | k + 1, i, md, mod =>
    let g := md.get
    if i < mod.norders then
      orderLoop k (i + 1) g.2 { mod with orders := mod.orders ++ [toU8 g.1] }
    else
      let item := toU8 g.1
      let npatterns := if mod.npatterns > item + 1 then mod.npatterns else item + 1
      orderLoop k (i + 1) g.2 { mod with npatterns := npatterns }

/-- The order stage of `LoadPatternsAndOrders` (up to the first test of `good()`): the order
count, the restart byte and the 128 order bytes. `new uint8_t[norders]` throws when the count
is the `EOF` value `2 ^ 64 - 1`. -/
def orderStage (md : FStream) (mod : Module) : Except Abort (Bool × FStream × Module) :=
  let g := md.get
  let mod := { mod with norders := toU64 g.1 }
  if mod.norders = 2 ^ 64 - 1 then .error .badAlloc
  else
    let mod := { mod with orders := [] }
    let g := g.2.get
    let r := orderLoop 128 0 g.2 mod
    .ok (r.1.good, r.1, r.2)

/-- The tag stage of `LoadPatternsAndOrders`: four calls `sampletag += moduledata.get()` and
the test of `good()`. -/
def tagStage (md : FStream) : Bool × FStream × String :=
  let gs := md.getN 4
  let sampletag := String.mk (gs.1.map (fun g => charOf (toChar g)))
  (gs.2.good, gs.2, sampletag)

/-- The loop `for(channel = 0; channel < nchannels; channel++)`: each cell is read with four
calls of `get()` and decoded. -/
def channelLoop : Nat → FStream → List Note → FStream × List Note
  | 0, md, notes => (md, notes)
  | k + 1, md, notes =>
    let g0 := md.get
    let g1 := g0.2.get
    let g2 := g1.2.get
    let g3 := g2.2.get
    channelLoop k g3.2 (notes ++ [decodeNote (packCell g0.1 g1.1 g2.1 g3.1)])

/-- The loop `for(uint64_t row = 0; i < mod.patterns[i].nrows; row++)` of pattern `i`, whose
`nrows` is 64: the condition compares the pattern index, not `row`; the store to
`rows[row]` with `row ≥ 64` is outside the `new Row[64]`. -/
def rowLoop (nchannels i : Nat) : Nat → Nat → FStream → List Row → Except Abort (FStream × List Row)
  | 0, _, _, _ => .error .outOfFuel
  | fuel + 1, row, md, rows =>
    if i < 64 then
      if row < 64 then
        let r := channelLoop nchannels md []
        rowLoop nchannels i fuel (row + 1) r.1 (rows ++ [{ nchannels := nchannels, notes := r.2 }])
      else .error .outOfBounds
    else .ok (md, rows)

/-- The loop `for(uint8_t i = 0; i < mod.npatterns; i++)`; the increment wraps at 256. -/
def patternLoop (nchannels npatterns : Nat) :
    Nat → Nat → FStream → List Pattern → Except Abort (FStream × List Pattern)
  | 0, _, _, _ => .error .outOfFuel
  | fuel + 1, i, md, patterns =>
    if i < npatterns then
      match rowLoop nchannels i fuel 0 md [] with
      | .error e => .error e
      | .ok r =>
        patternLoop nchannels npatterns fuel ((i + 1) % 2 ^ 8) r.1
          (patterns ++ [{ nrows := 64, rows := r.2 }])
    else .ok (md, patterns)

/-- The pattern-cell stage of `LoadPatternsAndOrders`, from `mod.patterns = new Pattern[..]`
to the last test of `good()`. -/
def patternStage (fuel nchannels : Nat) (md : FStream) (mod : Module) :
    Except Abort (Bool × FStream × Module) :=
  match patternLoop nchannels mod.npatterns fuel 0 md [] with
  | .error e => .error e
  | .ok r => .ok (r.1.good, r.1, { mod with patterns := r.2 })

/-- `LoadPatternsAndOrders`: the order stage, the tag stage, the registry lookup and the
pattern-cell stage. -/
def LoadPatternsAndOrders (fuel : Nat) (md : FStream) (mod : Module) :
    Except Abort (Bool × FStream × Module) :=
  match orderStage md mod with
  | .error e => .error e
  | .ok (false, md, mod) => .ok (false, md, mod)
  | .ok (true, md, mod) =>
    match tagStage md with
    | (false, md, _) => .ok (false, md, mod)
    | (true, md, sampletag) =>
      let nchannels := (resolveTag sampletag).nchannels
      patternStage fuel nchannels md mod

/-! ### `ModulePlayer::LoadSampleData` -/

/-- The loop of `LoadSampleData`, from index `i` with `k` iterations to go. -/
def sampleDataLoop : Nat → Nat → FStream → List Sample → Bool × FStream × List Sample
  | 0, _, md, samples => (true, md, samples)
  | k + 1, i, md, samples =>
    match samples.get? i with
    | none => (true, md, samples)
    | some smp =>
      if smp.length = 0 then sampleDataLoop k (i + 1) md samples
      else
        let r := md.read smp.length
        let samples := samples.set i { smp with data := r.1 }
        if !r.2.good then (false, r.2, samples)
        else sampleDataLoop k (i + 1) r.2 samples

/-- `LoadSampleData`. -/
def LoadSampleData (md : FStream) (mod : Module) : Bool × FStream × Module :=
  let r := sampleDataLoop mod.nsamples 0 md mod.samples
  (r.1, r.2.1, { mod with samples := r.2.2 })

/-! ### The constructor `ModulePlayer::ModulePlayer` -/

/-- The `struct TrackerState`; `cstate` is the length of the `new ChannelState[..]`. -/
structure TrackerState where
  cstate : Option Nat := none
  tpr : Nat := 6
  bpm : Nat := 125
  samplerate : Nat := 44100
deriving DecidableEq, Repr

/-- The data members of `ModulePlayer` the loader writes. -/
structure ModulePlayer where
  verbosity : Verbosity
  state : TrackerState
  loadstate : ModuleLoadState
  mod : Module

/-- The constructor `ModulePlayer(moduledata, verbosity)`: the four load stages in order, the
first failing one fixing `loadstate`. -/
def ModulePlayer.new (fuel : Nat) (u : Uninit) (moduledata : FStream)
    (verbosity : Verbosity) : Except Abort ModulePlayer :=
  let state : TrackerState := {}
  match LoadModuleHeader moduledata u.mod with
  | (false, _, mod) => .ok ⟨verbosity, state, .LOAD_FAILED_HEADER, mod⟩
  | (true, md, mod) =>
    match LoadSampleHeaders u md mod with
    | (false, _, mod) => .ok ⟨verbosity, state, .LOAD_FAILED_SAMPLE, mod⟩
    | (true, md, mod) =>
      match LoadPatternsAndOrders fuel md mod with
      | .error e => .error e
      | .ok (false, _, mod) => .ok ⟨verbosity, state, .LOAD_FAILED_PATTERN, mod⟩
      | .ok (true, md, mod) =>
        match LoadSampleData md mod with
        | (false, _, mod) => .ok ⟨verbosity, state, .LOAD_FAILED_SAMPLE, mod⟩
        | (true, _, mod) =>
          match mod.patterns with
          | [] => .error .outOfBounds
          | p :: _ =>
            match p.rows with
            | [] => .error .outOfBounds
            | r :: _ =>
              .ok ⟨verbosity, { state with cstate := some r.nchannels }, .LOAD_OK, mod⟩

/-- The load state a run of the constructor ends with, when it ends. -/
def loadstateOf (r : Except Abort ModulePlayer) : Option ModuleLoadState :=
  match r with
  | .ok p => some p.loadstate
  | .error _ => none

/-- One choice of the indeterminate storage: every integer 0, every string and array empty. -/
def Uninit.zero : Uninit :=
  { mod := { name := "", samples := [], nsamples := 0, npatterns := 0, norders := 0,
             orders := [], patterns := [] }
    sample := fun _ =>
      { name := "", length := 0, finetune := 0, volume := 0, loopstart := 0, looplength := 0,
        data := [] } }

/-- The statement `npatterns = npatterns > (item + 1) ? npatterns : (item + 1)` applied to
the bytes `bs` in turn. -/
def feedPatternCount (npatterns : Nat) (bs : List Byte) : Nat :=
  bs.foldl (fun np b => if np > b.val + 1 then np else b.val + 1) npatterns

/-- The largest of the order bytes `bs`, plus one: the pattern count of the specification. -/
def maxOrderPlusOne (bs : List Byte) : Nat :=
  bs.foldl (fun m b => max m b.val) 0 + 1

/-! ### Exact arithmetic for `GeneratePTPeriodTable` -/

/-- The real number `(num / den) * 2 ^ (exp / 96)`. Every `double` the period-table generator
computes is the rounding of a number of this form; the embedding computes with the exact
numbers. -/
structure Real96 where
  num : Int
  den : Nat
  exp : Int
deriving DecidableEq, Repr

namespace Real96

/-- An integer-valued literal such as `856.0`. -/
def ofInt (n : Int) : Real96 := { num := n, den := 1, exp := 0 }

/-- A decimal literal: `ofDecimal 5233 1` is `523.3`. -/
def ofDecimal (digits : Int) (places : Nat) : Real96 :=
  { num := digits, den := 10 ^ places, exp := 0 }

/-- The product `x * y`. -/
def mul (x y : Real96) : Real96 :=
  { num := x.num * y.num, den := x.den * y.den, exp := x.exp + y.exp }

/-- The quotient `x / y`. -/
def div (x y : Real96) : Real96 :=
  { num := x.num * y.num.sign * y.den, den := x.den * y.num.natAbs, exp := x.exp - y.exp }

instance : Mul Real96 := ⟨mul⟩

instance : Div Real96 := ⟨div⟩

end Real96

/-- `PeriodCorrector::pow2`, that is `pow(2.0, x)`, for a rational `x` (`x.exp = 0`) that is a
multiple of `1 / 96`; the generator calls it with `-1/12` and `-1/96` only. -/
def pow2 (x : Real96) : Real96 := { num := 1, den := 1, exp := 96 * x.num / x.den }

/-- Binary search, from bit `bit - 1` down to bit 0, for the largest `w ≥ acc` with
`w ^ 96 ≤ y`. -/
def irootAux (y : Nat) : Nat → Nat → Nat
  | 0, acc => acc
  | bit + 1, acc =>
    if (acc + 2 ^ bit) ^ 96 ≤ y then irootAux y bit (acc + 2 ^ bit) else irootAux y bit acc

/-- For `x ≥ 0` below `2 ^ 16`: `floor (2 * x)`, the largest `w` with
`w ^ 96 ≤ (2 * num / den) ^ 96 * 2 ^ exp`. -/
def floorTwice (x : Real96) : Nat :=
  let a := x.num.toNat
  let y :=
    if 0 ≤ x.exp then (2 * a) ^ 96 * 2 ^ x.exp.toNat / x.den ^ 96
    else (2 * a) ^ 96 / (x.den ^ 96 * 2 ^ (-x.exp).toNat)
  irootAux y 17 0

/-- The expression `(unsigned short)(x + 0.5)`: `floor (x + 1/2)`, which is
`(floor (2 * x) + 1) / 2`, as an `unsigned short`. -/
def roundU16 (x : Real96) : Nat := ((floorTwice x + 1) / 2) % 2 ^ 16

/-- The real number `r` is the value of `x`: `r = (num / den) * 2 ^ (exp / 96)`, with a
positive denominator. -/
def Real96.Denotes (x : Real96) (r : ℝ) : Prop :=
  0 < x.den ∧ r = (x.num : ℝ) / (x.den : ℝ) * (2 : ℝ) ^ ((x.exp : ℝ) / 96)

/-! ### `PeriodCorrector` -/

/-- The member `unsigned short periods[36][36]`, as the function from the two indices to the
element. -/
abbrev Table := Nat → Nat → Nat

/-- The assignment `periods[i][j] = v`. -/
def Table.set (periods : Table) (i j v : Nat) : Table :=
  fun a b => if a = i ∧ b = j then v else periods a b

/-- The statement `periods[i][j]--` on an `unsigned short`. -/
def Table.decr (periods : Table) (i j : Nat) : Table :=
  periods.set i j ((periods i j + (2 ^ 16 - 1)) % 2 ^ 16)

/-- The statement `periods[i][j]++` on an `unsigned short`. -/
def Table.incr (periods : Table) (i j : Nat) : Table :=
  periods.set i j ((periods i j + 1) % 2 ^ 16)

/-- `const double NTSC_CLK = 3579545.0`. -/
def NTSC_CLK : Real96 := Real96.ofInt 3579545

/-- `const double REF_PERIOD_PT = 856.0`. -/
def REF_PERIOD_PT : Real96 := Real96.ofInt 856

/-- `const double REF_PERIOD_UST = NTSC_CLK / 523.3 / 8`. -/
def REF_PERIOD_UST : Real96 := NTSC_CLK / Real96.ofDecimal 5233 1 / Real96.ofInt 8

/-- `const double UST_TO_PT_RATIO = REF_PERIOD_UST / REF_PERIOD_PT`. -/
def UST_TO_PT_RATIO : Real96 := REF_PERIOD_UST / REF_PERIOD_PT

/-- `const double semitone_step = pow2(-1.0/12.0)`. -/
def semitone_step : Real96 := pow2 (Real96.ofInt (-1) / Real96.ofInt 12)

/-- `const double tune_step = pow2(-1.0/8.0 * 1.0/12.0)`. -/
def tune_step : Real96 :=
  pow2 (Real96.ofInt (-1) / Real96.ofInt 8 * Real96.ofInt 1 / Real96.ofInt 12)

/-- The loop `for(n = 0; n < 36; n++)` of tuning `t`, from note `n` with `k` iterations to
go; the state is the table and `p2`. -/
def semitoneLoop (t : Nat) : Nat → Nat → Table × Real96 → Table × Real96
  | 0, _, st => st
  | k + 1, n, (periods, p2) =>
    let periods := periods.set (t + 8) n (roundU16 p2)
    let p2 := p2 * semitone_step
    let periods := periods.set t n (roundU16 p2)
    let periods :=
      if t = 0 then periods.set 0 n (roundU16 (p2 * UST_TO_PT_RATIO)) else periods
    semitoneLoop t k (n + 1) (periods, p2)

/-- The loop `for(t = 0; t < 8; t++)`, from tuning `t` with `k` iterations to go; the state
is the table and `p1`. -/
def tuningLoop : Nat → Nat → Table × Real96 → Table × Real96
  | 0, _, st => st
  | k + 1, t, (periods, p1) =>
    let p2 := p1
    let r := semitoneLoop t 36 0 (periods, p2)
    tuningLoop k (t + 1) (r.1, p1 * tune_step)

/-- The loop `for(n = 0; n < 9; n++) periods[0][n] = periods[0][n+12] * 2`. -/
def octaveLoop : Nat → Nat → Table → Table
  | 0, _, periods => periods
  | k + 1, n, periods =>
    octaveLoop k (n + 1) (periods.set 0 n ((periods 0 (n + 12) * 2) % 2 ^ 16))

/-- The loop `for(n = 1; n < 36; n++) periods[8][n] = periods[0][n-1]`. -/
def copyLoop : Nat → Nat → Table → Table
  | 0, _, periods => periods
  | k + 1, n, periods => copyLoop k (n + 1) (periods.set 8 n (periods 0 (n - 1)))

/-- `PeriodCorrector::GeneratePTPeriodTable`, applied to the table `periods` as it is found. -/
def GeneratePTPeriodTable (periods : Table) : Table :=
  let p1 := REF_PERIOD_PT / semitone_step
  let periods := (tuningLoop 8 0 (periods, p1)).1
  let periods := octaveLoop 9 0 periods
  let periods := copyLoop 35 1 periods
  let periods := ((periods.decr 1 4).incr 1 22).incr 1 24
  let periods := ((periods.incr 2 23).incr 4 9).incr 7 24
  let periods := ((periods.decr 9 6).decr 9 26).decr 12 34
  periods

/-- The loop `for(int i = 0; i < 36; i++)` of `CorrectPeriod`, from index `i` with `k`
iterations to go, and the `return 0` after it. -/
def correctLoop (periods : Table) (period finetune : Nat) : Nat → Nat → Nat
  | 0, _ => 0
  | k + 1, i =>
    if periods i 0 = period then periods i finetune
    else correctLoop periods period finetune k (i + 1)

/-- `PeriodCorrector::CorrectPeriod` on the table `periods`. -/
def CorrectPeriod (periods : Table) (period finetune : Nat) : Nat :=
  correctLoop periods period finetune 36 0

/-- The table of a `PeriodCorrector` after its constructor, which runs
`GeneratePTPeriodTable` on the uninitialised member holding `garbage`. -/
def PeriodCorrector.periods (garbage : Table) : Table := GeneratePTPeriodTable garbage

/-- The initial table holding 0 everywhere. -/
def zeroTable : Table := fun _ _ => 0

/-- The sixteen rows the generator produces, row `t` being tuning `t` and column `n` note `n`. -/
def ptRows : List (List Nat) :=
  [[856, 808, 762, 720, 678, 640, 604, 570, 538, 508, 480, 453, 428, 404, 381, 360, 339, 320,
    302, 285, 269, 254, 240, 226, 214, 202, 190, 180, 170, 160, 151, 143, 135, 127, 120, 113],
   [850, 802, 757, 715, 674, 637, 601, 567, 535, 505, 477, 450, 425, 401, 379, 357, 337, 318,
    300, 284, 268, 253, 239, 225, 213, 201, 189, 179, 169, 159, 150, 142, 134, 126, 119, 113],
   [844, 796, 752, 709, 670, 632, 597, 563, 532, 502, 474, 447, 422, 398, 376, 355, 335, 316,
    298, 282, 266, 251, 237, 224, 211, 199, 188, 177, 167, 158, 149, 141, 133, 125, 118, 112],
   [838, 791, 746, 704, 665, 628, 592, 559, 528, 498, 470, 444, 419, 395, 373, 352, 332, 314,
    296, 280, 264, 249, 235, 222, 209, 198, 187, 176, 166, 157, 148, 140, 132, 125, 118, 111],
   [832, 785, 741, 699, 660, 623, 588, 555, 524, 495, 467, 441, 416, 392, 370, 350, 330, 312,
    294, 278, 262, 247, 233, 220, 208, 196, 185, 175, 165, 156, 147, 139, 131, 124, 117, 110],
   [826, 779, 736, 694, 655, 619, 584, 551, 520, 491, 463, 437, 413, 390, 368, 347, 328, 309,
    292, 276, 260, 245, 232, 219, 206, 195, 184, 174, 164, 155, 146, 138, 130, 123, 116, 109],
   [820, 774, 730, 689, 651, 614, 580, 547, 516, 487, 460, 434, 410, 387, 365, 345, 325, 307,
    290, 274, 258, 244, 230, 217, 205, 193, 183, 172, 163, 154, 145, 137, 129, 122, 115, 109],
   [814, 768, 725, 684, 646, 610, 575, 543, 513, 484, 457, 431, 407, 384, 363, 342, 323, 305,
    288, 272, 256, 242, 228, 216, 204, 192, 181, 171, 161, 152, 144, 136, 128, 121, 114, 108],
   [907, 856, 808, 762, 720, 678, 640, 604, 570, 538, 508, 480, 453, 428, 404, 381, 360, 339,
    320, 302, 285, 269, 254, 240, 226, 214, 202, 190, 180, 170, 160, 151, 143, 135, 127, 120],
   [900, 850, 802, 757, 715, 675, 636, 601, 567, 535, 505, 477, 450, 425, 401, 379, 357, 337,
    318, 300, 284, 268, 253, 238, 225, 212, 200, 189, 179, 169, 159, 150, 142, 134, 126, 119],
   [894, 844, 796, 752, 709, 670, 632, 597, 563, 532, 502, 474, 447, 422, 398, 376, 355, 335,
    316, 298, 282, 266, 251, 237, 223, 211, 199, 188, 177, 167, 158, 149, 141, 133, 125, 118],
   [887, 838, 791, 746, 704, 665, 628, 592, 559, 528, 498, 470, 444, 419, 395, 373, 352, 332,
    314, 296, 280, 264, 249, 235, 222, 209, 198, 187, 176, 166, 157, 148, 140, 132, 125, 118],
   [881, 832, 785, 741, 699, 660, 623, 588, 555, 524, 494, 467, 441, 416, 392, 370, 350, 330,
    312, 294, 278, 262, 247, 233, 220, 208, 196, 185, 175, 165, 156, 147, 139, 131, 123, 117],
   [875, 826, 779, 736, 694, 655, 619, 584, 551, 520, 491, 463, 437, 413, 390, 368, 347, 328,
    309, 292, 276, 260, 245, 232, 219, 206, 195, 184, 174, 164, 155, 146, 138, 130, 123, 116],
   [868, 820, 774, 730, 689, 651, 614, 580, 547, 516, 487, 460, 434, 410, 387, 365, 345, 325,
    307, 290, 274, 258, 244, 230, 217, 205, 193, 183, 172, 163, 154, 145, 137, 129, 122, 115],
   [862, 814, 768, 725, 684, 646, 610, 575, 543, 513, 484, 457, 431, 407, 384, 363, 342, 323,
    305, 288, 272, 256, 242, 228, 216, 203, 192, 181, 171, 161, 152, 144, 136, 128, 121, 114]]

/-- The entry of `ptRows` for tuning `t` and note `n`. -/
def ptEntry (t n : Nat) : Nat := (ptRows.getD t []).getD n 0

/-- Two tables agree on the rows and columns the generator writes. -/
def AgreeOnRows (p q : Table) : Prop := ∀ a b, a < 16 → b < 36 → p a b = q a b

/-! ### `TrackerState::SamplesPerTick` -/

/-- The `enum PlayReturn`. -/
inductive PlayReturn where
  | PLAY_OK
  | PLAY_FAILED
deriving DecidableEq, Repr

/-- The value of an enumerator of `enum Verbosity`. -/
def Verbosity.toNat : Verbosity → Nat
  | .NONE => 0
  | .MESSAGE => 1
  | .DEBUG => 2

/-- The `case` sections of the `switch(loadstate)` in `playModule`, in source order: the
label, the line written to `std::cout`, and the value returned, `none` for the section of
`LOAD_OK`, which ends without `return` or `break`. -/
def playModuleCases : List (ModuleLoadState × String × Option PlayReturn) :=
  [(.LOAD_OK, "Module load was successful, starting playback!", none),
   (.LOAD_FAILED_HEADER, "Module Load failed at header, is this a MOD file?",
      some .PLAY_FAILED),
   (.LOAD_FAILED_PATTERN, "Module load failed at pattern loading, module may be corrupted.",
      some .PLAY_FAILED),
   (.LOAD_FAILED_SAMPLE, "Module load failed at sample loading, module may be corrupted.",
      some .PLAY_FAILED),
   (.LOAD_FAILED_OTHER, "Module load failed in an unknown way. Oh no.", some .PLAY_FAILED)]

/-- Execution of a `switch` on `label`: the sections before the matching label are skipped,
and from the matching one on the sections run in order until one returns; `entered` tells
whether the matching label has been passed. The result is the lines written and the value
returned, `none` when control leaves the `switch` at its end. -/
def runSwitch (label : ModuleLoadState) :
    List (ModuleLoadState × String × Option PlayReturn) → Bool → List String × Option PlayReturn
  | [], _ => ([], none)
  | (l, line, ret) :: rest, entered =>
    if entered || decide (l = label) then
      match ret with
      | some r => ([line], some r)
      | none =>
        let r := runSwitch label rest true
        (line :: r.1, r.2)
    else runSwitch label rest false

/-- `ModulePlayer::playModule`: the lines written to `std::cout` and the value returned. The
`switch` runs only `if(verbosity > NONE)`. The statement after it, `for(int i = 0;)
return PLAY_OK;`, whose header is incomplete in the source, is read as returning `PLAY_OK`. -/
def playModule (p : ModulePlayer) : List String × PlayReturn :=
  if p.verbosity.toNat > Verbosity.NONE.toNat then
    match runSwitch p.loadstate playModuleCases false with
    | (out, some r) => (out, r)
    | (out, none) => (out, .PLAY_OK)
  else ([], .PLAY_OK)

/-- A `ModulePlayer` in a given load state with a given verbosity, its other members as the
constructor leaves them when it returns before loading anything. -/
def playerInState (loadstate : ModuleLoadState) (verbosity : Verbosity) : ModulePlayer :=
  { verbosity := verbosity, state := {}, loadstate := loadstate, mod := Uninit.zero.mod }

/-! ### `ModulePlayer::PlayOneTick` -/

/-- The 16-bit big-endian word stored at offset `off` of the file `bs`. -/
def beWord (bs : List Byte) (off : Nat) : Nat :=
  (bs.getD off 0).val * 256 + (bs.getD (off + 1) 0).val

/-- The stream over the file `bs`, good, with the read position at `pos`. -/
def FStream.atPos (bs : List Byte) (pos : Nat) : FStream :=
  { data := bs, pos := pos, eofbit := false, failbit := false }

/-- A file of 1084 bytes, all 0 except the byte at offset 49, the low byte of the loop
length of sample 0, which is 1: the header of sample 0 stores length 0, loop start 0 and
loop length 1 (in words). -/
def fileLoopPastEnd : List Byte :=
  List.replicate 49 0 ++ [1] ++ List.replicate 1034 0

/-- A file of 1084 bytes, all 0: its signature bytes at offsets 1080 to 1083 are 0. -/
def fileAllZero : List Byte := List.replicate 1084 0

/-- A file of 1084 bytes, all 0 except the low bytes of the three size words of sample 0:
the header of sample 0 stores length 3 (offset 43), loop start 1 (offset 47) and loop
length 1 (offset 49), in words. -/
def fileSizes311 : List Byte :=
  List.replicate 43 0 ++ [3] ++ List.replicate 3 0 ++ [1] ++ [0] ++ [1]
    ++ List.replicate 1034 0

/-- One choice of the indeterminate storage in which the elements of `new Sample[n]` are not
zero: every sample holds length 5, loop start 8 and loop length 16. -/
def Uninit.stale : Uninit :=
  { mod := Uninit.zero.mod
    sample := fun _ =>
      { name := "", length := 5, finetune := 0, volume := 0, loopstart := 8,
        looplength := 16, data := [] } }

/-- A file of 1084 bytes, all 0 except the low byte of the length of sample 0 (offset 43),
which is 1, and the order count (offset 950), which is 128: sample 0 has a length of one
word, every order is active, and no sample data follows the tag. -/
def fileSampleDataMissing : List Byte :=
  List.replicate 43 0 ++ [1] ++ List.replicate 906 0 ++ [128] ++ List.replicate 133 0

/-! ## Part II. Theorems -/

/-! ### Bit-mask arithmetic -/

theorem and_shifted_mask (x j k : Nat) :
    x &&& ((2 ^ j - 1) <<< k) = ((x >>> k) % 2 ^ j) <<< k := by
  apply Nat.eq_of_testBit_eq
  intro i
  simp only [Nat.testBit_and, Nat.testBit_shiftLeft, Nat.testBit_mod_two_pow,
    Nat.testBit_shiftRight, Nat.testBit_two_pow_sub_one]
  by_cases h : i ≥ k
  · have hk : k + (i - k) = i := by omega
    simp [h, hk, Bool.and_comm]
  · simp [h]

theorem and_mask_div_mod (x j k : Nat) :
    x &&& ((2 ^ j - 1) * 2 ^ k) = (x / 2 ^ k % 2 ^ j) * 2 ^ k := by
  have h := and_shifted_mask x j k
  simpa [Nat.shiftLeft_eq, Nat.shiftRight_eq_div_pow] using h

theorem cellWord_eq (b0 b1 b2 b3 : Byte) :
    cellWord b0 b1 b2 b3 = b0.val * 2 ^ 24 + b1.val * 2 ^ 16 + b2.val * 2 ^ 8 + b3.val := by
  have h0 := b0.isLt
  have h1 := b1.isLt
  have h2 := b2.isLt
  have h3 := b3.isLt
  have e3 : b0.val * 2 ^ 24 + b1.val * 2 ^ 16 + b2.val * 2 ^ 8 + b3.val
      = (2 ^ 8 * (b0.val * 2 ^ 16 + b1.val * 2 ^ 8 + b2.val)) ||| b3.val := by
    rw [← Nat.mul_add_lt_is_or (by omega)]; ring
  have e2 : 2 ^ 8 * (b0.val * 2 ^ 16 + b1.val * 2 ^ 8 + b2.val)
      = (2 ^ 16 * (b0.val * 2 ^ 8 + b1.val)) ||| (b2.val * 2 ^ 8) := by
    rw [← Nat.mul_add_lt_is_or (by omega)]; ring
  have e1 : 2 ^ 16 * (b0.val * 2 ^ 8 + b1.val) = (2 ^ 24 * b0.val) ||| (b1.val * 2 ^ 16) := by
    rw [← Nat.mul_add_lt_is_or (by omega)]; ring
  have m0 : ((b0.val * 2 ^ 24) % 2 ^ 64) = b0.val * 2 ^ 24 := Nat.mod_eq_of_lt (by omega)
  have m1 : ((b1.val * 2 ^ 16) % 2 ^ 64) = b1.val * 2 ^ 16 := Nat.mod_eq_of_lt (by omega)
  have m2 : ((b2.val * 2 ^ 8) % 2 ^ 64) = b2.val * 2 ^ 8 := Nat.mod_eq_of_lt (by omega)
  have t0 : toU64 (b0.val : Int) = b0.val := by unfold toU64; omega
  have t1 : toU64 (b1.val : Int) = b1.val := by unfold toU64; omega
  have t2 : toU64 (b2.val : Int) = b2.val := by unfold toU64; omega
  have t3 : toU64 (b3.val : Int) = b3.val := by unfold toU64; omega
  have n0 : (0 ||| b0.val * 2 ^ 24) % 2 ^ 32 = 2 ^ 24 * b0.val := by
    rw [Nat.zero_or]; omega
  unfold cellWord packCell
  simp only [t0, t1, t2, t3, Nat.shiftLeft_eq, m0, m1, m2, n0]
  rw [e3, e2, e1]
  have l1 : (2 ^ 24 * b0.val ||| b1.val * 2 ^ 16) % 2 ^ 32
      = 2 ^ 24 * b0.val ||| b1.val * 2 ^ 16 := by
    rw [← e1]; omega
  rw [l1]
  have l2 : (2 ^ 24 * b0.val ||| b1.val * 2 ^ 16 ||| b2.val * 2 ^ 8) % 2 ^ 32
      = 2 ^ 24 * b0.val ||| b1.val * 2 ^ 16 ||| b2.val * 2 ^ 8 := by
    rw [← e1, ← e2]; omega
  rw [l2]
  rw [← e1, ← e2, ← e3]; omega

/-! ### What the cell decoder computes -/

theorem decodeNote_period (b0 b1 b2 b3 : Byte) :
    (decodeNote (cellWord b0 b1 b2 b3)).period = b1.val := by
  have h0 := b0.isLt
  have h1 := b1.isLt
  have h2 := b2.isLt
  have h3 := b3.isLt
  have hA := and_mask_div_mod (cellWord b0 b1 b2 b3) 4 12
  have hB := and_mask_div_mod (cellWord b0 b1 b2 b3) 8 16
  have hor := Nat.mul_add_lt_is_or (i := 12)
    (b := (cellWord b0 b1 b2 b3 / 2 ^ 16 % 2 ^ 8) * 2 ^ 16 / 2 ^ 16)
    (by omega) (cellWord b0 b1 b2 b3 / 2 ^ 12 % 2 ^ 4)
  simp only [decodeNote, Nat.shiftRight_eq_div_pow]
  norm_num at hA hB hor ⊢
  rw [hA, hB, Nat.mul_div_cancel _ (by norm_num), Nat.mul_comm _ 4096, ← hor, cellWord_eq]
  clear hA hB hor
  have e16 : (b0.val * 2 ^ 24 + b1.val * 2 ^ 16 + b2.val * 2 ^ 8 + b3.val) / 65536 % 256
      = b1.val := by omega
  rw [e16, Nat.mul_add_mod]
  exact Nat.mod_eq_of_lt (by omega)

theorem decodeNote_sample (b0 b1 b2 b3 : Byte) :
    (decodeNote (cellWord b0 b1 b2 b3)).sample = 0 := by
  have hA := and_mask_div_mod (cellWord b0 b1 b2 b3) 4 28
  have hB := and_mask_div_mod (cellWord b0 b1 b2 b3) 4 12
  have hlow : ∀ z : Nat, z < 16 → ∀ a : Nat, (a * 16) &&& z = 0 := by
    intro z hz a
    have hz15 : z &&& (2 ^ 4 - 1) = z := by
      rw [Nat.and_pow_two_sub_one_eq_mod]; exact Nat.mod_eq_of_lt hz
    have ha15 : (a * 16) &&& (2 ^ 4 - 1) = 0 := by
      rw [Nat.and_pow_two_sub_one_eq_mod]; omega
    rw [← hz15, Nat.and_comm z, ← Nat.and_assoc, ha15, Nat.zero_and]
  simp only [decodeNote, Nat.shiftRight_eq_div_pow]
  norm_num at hA hB ⊢
  rw [hA, hB]
  have e1 : cellWord b0 b1 b2 b3 / 268435456 % 16 * 268435456 / 16777216
      = (cellWord b0 b1 b2 b3 / 268435456 % 16) * 16 := by omega
  have e2 : cellWord b0 b1 b2 b3 / 4096 % 16 * 4096 / 4096
      = cellWord b0 b1 b2 b3 / 4096 % 16 := by omega
  rw [e1, e2, hlow _ (Nat.mod_lt _ (by norm_num))]

theorem decodeNote_effect (b0 b1 b2 b3 : Byte) :
    (decodeNote (cellWord b0 b1 b2 b3)).effect = b3.val % 16 := by
  have h0 := b0.isLt
  have h1 := b1.isLt
  have h2 := b2.isLt
  have h3 := b3.isLt
  have hA := Nat.and_pow_two_sub_one_eq_mod (cellWord b0 b1 b2 b3) 4
  have hm : (0x00000F00 >>> 8 : Nat) = 2 ^ 4 - 1 := by decide
  simp only [decodeNote, hm]
  rw [hA, cellWord_eq]
  omega

theorem canonicalPeriod_cellWord (b0 b1 b2 b3 : Byte) :
    canonicalPeriod (cellWord b0 b1 b2 b3) = (b0.val % 16) * 256 + b1.val := by
  have h0 := b0.isLt
  have h1 := b1.isLt
  have h2 := b2.isLt
  have h3 := b3.isLt
  have hA := and_mask_div_mod (cellWord b0 b1 b2 b3) 4 24
  have hB := and_mask_div_mod (cellWord b0 b1 b2 b3) 8 16
  have hor := Nat.mul_add_lt_is_or (i := 8)
    (b := (cellWord b0 b1 b2 b3 / 2 ^ 16 % 2 ^ 8) * 2 ^ 16 / 2 ^ 16)
    (by omega) (cellWord b0 b1 b2 b3 / 2 ^ 24 % 2 ^ 4)
  simp only [canonicalPeriod, Nat.shiftRight_eq_div_pow]
  norm_num at hA hB hor ⊢
  have e1 : cellWord b0 b1 b2 b3 / 16777216 % 16 * 16777216 / 65536
      = 256 * (cellWord b0 b1 b2 b3 / 16777216 % 16) := by omega
  rw [hA, hB, e1, Nat.mul_div_cancel _ (by norm_num), ← hor, cellWord_eq]
  clear hA hB hor e1
  have e16 : (b0.val * 2 ^ 24 + b1.val * 2 ^ 16 + b2.val * 2 ^ 8 + b3.val) / 65536
      = b0.val * 256 + b1.val := by omega
  have e24 : (b0.val * 2 ^ 24 + b1.val * 2 ^ 16 + b2.val * 2 ^ 8 + b3.val) / 16777216
      = b0.val := by omega
  rw [e16, e24]
  have e8 : (b0.val * 256 + b1.val) % 256 = b1.val := by omega
  rw [e8]
  ring

theorem canonicalEffect_cellWord (b0 b1 b2 b3 : Byte) :
    canonicalEffect (cellWord b0 b1 b2 b3) = b2.val % 16 := by
  have h0 := b0.isLt
  have h1 := b1.isLt
  have h2 := b2.isLt
  have h3 := b3.isLt
  have hA := and_mask_div_mod (cellWord b0 b1 b2 b3) 4 8
  simp only [canonicalEffect, Nat.shiftRight_eq_div_pow]
  norm_num at hA ⊢
  rw [hA, cellWord_eq]
  omega

/-- C1 (period of a cell). On the cell `03 58 00 00`, which stores period `0x358 = 856`,
the decoder yields period `0x58 = 88`: the shifted mask `0x0F000000 >> 12 = 0xF000` selects
bits the 12-bit field drops, so the low nibble of byte 0 never reaches the period. -/
theorem C1_period_loses_high_nibble :
    (decodeNote (cellWord 0x03 0x58 0x00 0x00)).period = 0x58 ∧
    canonicalPeriod (cellWord 0x03 0x58 0x00 0x00) = 0x358 ∧
    ((0x03 &&& 0x0F) <<< 8) ||| 0x58 = 0x358 := by
  decide

/-- C2 (sample index of a cell). On the cell with `b0 = 0x10` and `b2 = 0x20`, which stores
sample index `0x12`, the decoder yields sample index `0`: the two nibbles are combined with
`&` and occupy disjoint bit positions. -/
theorem C2_sample_is_zero :
    (decodeNote (cellWord 0x10 0x00 0x20 0x00)).sample = 0 ∧
    canonicalSample 0x10 0x20 = 0x12 := by
  decide

/-- C3 (effect command of a cell). On the cell `00 00 0A 00`, whose bits 8-11 hold effect
`0xA`, the decoder yields effect `0`, and changing only the argument byte to `0x05` changes
the decoded effect to `5`: the effect is taken from the low nibble of byte 3. -/
theorem C3_effect_reads_argument_byte :
    (decodeNote (cellWord 0x00 0x00 0x0A 0x00)).effect = 0 ∧
    canonicalEffect (cellWord 0x00 0x00 0x0A 0x00) = 0xA ∧
    (decodeNote (cellWord 0x00 0x00 0x0A 0x05)).effect = 5 := by
  decide

/-! ### The stream -/

theorem FStream.get_of_lt (s : FStream) (hg : s.good = true) (h : s.pos < s.data.length) :
    s.get = (((s.data.get ⟨s.pos, h⟩).val : Int), { s with pos := s.pos + 1 }) := by
  unfold FStream.get
  rw [if_pos hg, List.get?_eq_get h]

theorem FStream.get_data (s : FStream) : s.get.2.data = s.data := by
  unfold FStream.get
  split
  · split <;> rfl
  · rfl

theorem FStream.get_not_good (s : FStream) (hg : s.good = false) : s.get.2.good = false := by
  unfold FStream.get
  rw [if_neg (by simp [hg])]
  simp [FStream.good]

theorem FStream.get_at_end (s : FStream) (h : s.data.length ≤ s.pos) :
    s.get.2.good = false := by
  unfold FStream.get
  split
  · rw [List.get?_eq_none.mpr h]
    simp [FStream.good]
  · simp [FStream.good]

theorem FStream.get_pos_le (s : FStream) : s.get.2.pos ≤ s.pos + 1 := by
  unfold FStream.get
  split
  · split <;> simp
  · simp

theorem FStream.get_pos_of_good (s : FStream) (h : s.get.2.good = true) :
    s.get.2.pos = s.pos + 1 := by
  by_cases hg : s.good = true
  · by_cases hl : s.pos < s.data.length
    · rw [FStream.get_of_lt s hg hl]
    · rw [FStream.get_at_end s (by omega)] at h
      cases h
  · rw [FStream.get_not_good s (by simpa using hg)] at h
    cases h

theorem FStream.getN_not_good (k : Nat) (s : FStream) (hg : s.good = false) :
    (s.getN k).2.good = false := by
  induction k generalizing s with
  | zero => simpa [FStream.getN] using hg
  | succ k ih =>
    simp only [FStream.getN]
    exact ih _ (FStream.get_not_good s hg)

theorem FStream.getN_short (k : Nat) (s : FStream) (h : s.data.length < s.pos + (k + 1)) :
    (s.getN (k + 1)).2.good = false := by
  induction k generalizing s with
  | zero =>
    simp only [FStream.getN]
    exact FStream.get_at_end s (by omega)
  | succ k ih =>
    rw [FStream.getN]
    simp only
    by_cases hg : s.get.2.good = true
    · apply ih
      rw [FStream.get_data, FStream.get_pos_of_good s hg]
      omega
    · exact FStream.getN_not_good _ _ (by simpa using hg)

/-! ### The header stage on a short stream -/

theorem LoadModuleHeader_short (bs : List Byte) (mod : Module) (h : bs.length < 1084) :
    (LoadModuleHeader (FStream.ofBytes bs) mod).1 = false := by
  have hs : (((FStream.ofBytes bs).seekg 1080).getN 4).2.good = false := by
    apply FStream.getN_short 3
    simp [FStream.ofBytes, FStream.seekg]
    omega
  unfold LoadModuleHeader
  simp [hs]

theorem new_short (fuel : Nat) (u : Uninit) (verbosity : Verbosity) (bs : List Byte)
    (h : bs.length < 1084) :
    loadstateOf (ModulePlayer.new fuel u (FStream.ofBytes bs) verbosity)
      = some .LOAD_FAILED_HEADER := by
  have hh := LoadModuleHeader_short bs u.mod h
  unfold ModulePlayer.new
  rcases hr : LoadModuleHeader (FStream.ofBytes bs) u.mod with ⟨ok, md, mod⟩
  rw [hr] at hh
  simp only at hh
  subst hh
  rfl

/-- C5, as the code has it. A stream shorter than 1084 bytes, so in particular every stream
that ends inside the sample-header section, makes the constructor return with the load state
of the header stage: `LoadModuleHeader` reads the signature at offset 1080 first. -/
theorem C5_short_stream_fails_at_header (fuel : Nat) (u : Uninit) (verbosity : Verbosity)
    (bs : List Byte) (h : bs.length < 1084) :
    loadstateOf (ModulePlayer.new fuel u (FStream.ofBytes bs) verbosity)
      = some .LOAD_FAILED_HEADER :=
  new_short fuel u verbosity bs h

/-- C5, as the code has it, on a stream of 949 zero bytes, the longest stream that ends
inside the sample-header section. -/
theorem C5_short_stream_fails_at_header_witness :
    (List.replicate 949 (0 : Byte)).length < 1084 ∧
    loadstateOf (ModulePlayer.new 0 Uninit.zero
        (FStream.ofBytes (List.replicate 949 (0 : Byte))) .MESSAGE)
      = some .LOAD_FAILED_HEADER :=
  ⟨by rw [List.length_replicate]; omega,
    C5_short_stream_fails_at_header 0 Uninit.zero .MESSAGE _
      (by rw [List.length_replicate]; omega)⟩

/-- C5, as stated, fails. A stream of 100 bytes ends inside the sample-header section
(`20 ≤ 100 < 950`), and the constructor ends with `LOAD_FAILED_HEADER`, not with
`LOAD_FAILED_SAMPLE`. -/
theorem C5_truncated_sample_headers_counterexample :
    20 ≤ (List.replicate 100 (0 : Byte)).length ∧
    (List.replicate 100 (0 : Byte)).length < 20 + 30 * 31 ∧
    loadstateOf (ModulePlayer.new 0 Uninit.zero
        (FStream.ofBytes (List.replicate 100 (0 : Byte))) .MESSAGE)
      = some .LOAD_FAILED_HEADER ∧
    loadstateOf (ModulePlayer.new 0 Uninit.zero
        (FStream.ofBytes (List.replicate 100 (0 : Byte))) .MESSAGE)
      ≠ some .LOAD_FAILED_SAMPLE := by
  have h := new_short 0 Uninit.zero .MESSAGE (List.replicate 100 (0 : Byte))
    (by rw [List.length_replicate]; omega)
  refine ⟨by rw [List.length_replicate]; omega, by rw [List.length_replicate]; omega, h, ?_⟩
  rw [h]
  decide

/-! ### The tag registry -/

theorem QuirkMap.index_of_not_mem (m : QuirkMap) (key : String)
    (h : key ∉ m.map Prod.fst) : (QuirkMap.index m key).1 = {} := by
  induction m with
  | nil => rfl
  | cons e rest ih =>
    obtain ⟨k, v⟩ := e
    simp only [List.map_cons, List.mem_cons, not_or] at h
    unfold QuirkMap.index
    rw [if_neg (fun hk => h.1 hk.symm)]
    exact ih h.2

theorem tagRegistry_keys :
    tagRegistry.map Prod.fst
      = staticTags ++
        [10, 12, 14, 16, 18, 20, 22, 24, 26, 28, 30, 32].flatMap
          (fun N : Nat => [toString N ++ "CN", toString N ++ "CH"]) := by
  decide

theorem isRegisteredTag_of_key (s : String) (h : s ∈ tagRegistry.map Prod.fst) :
    IsRegisteredTag s := by
  rw [tagRegistry_keys, List.mem_append, List.mem_flatMap] at h
  rcases h with h | ⟨N, hN, hs⟩
  · exact Or.inl h
  · have hb : ∀ M ∈ [10, 12, 14, 16, 18, 20, 22, 24, 26, 28, 30, 32],
        10 ≤ M ∧ M ≤ 32 ∧ M % 2 = 0 := by decide
    obtain ⟨h1, h2, h3⟩ := hb N hN
    exact Or.inr ⟨N, h1, h2, h3, by simpa using hs⟩

/-- C10 (unknown tags). A tag that is none of the eleven static tags and none of the
generated tags `{N}CN` / `{N}CH` (`N` even, `10 ≤ N ≤ 32`) resolves, through the lookup
`tag[sampletag]` of `LoadPatternsAndOrders`, to the default-constructed `TrackerQuirks`:
4 channels and quirk flags 0. The lookup is a total function, so it never fails. -/
theorem C10_unknown_tag_resolves_to_default (s : String) (h : ¬ IsRegisteredTag s) :
    resolveTag s = { nchannels := 4, effectquirks := 0 } :=
  QuirkMap.index_of_not_mem tagRegistry s (fun hk => h (isRegisteredTag_of_key s hk))

theorem not_registered_MK : ¬ IsRegisteredTag "M.K." := by
  rintro (h | ⟨N, h1, h2, _, h4⟩)
  · revert h; decide
  · interval_cases N <;> revert h4 <;> decide

/-- C10 on the tag `M.K.`, which is not registered: it resolves to 4 channels. -/
theorem C10_unknown_tag_resolves_to_default_witness :
    ¬ IsRegisteredTag "M.K." ∧ resolveTag "M.K." = { nchannels := 4, effectquirks := 0 } ∧
    (resolveTag "M.K.").nchannels = 4 :=
  ⟨not_registered_MK, C10_unknown_tag_resolves_to_default "M.K." not_registered_MK,
    congrArg TrackerQuirks.nchannels
      (C10_unknown_tag_resolves_to_default "M.K." not_registered_MK)⟩

/-! ### The order stage -/

theorem toU8_byte (b : Byte) : toU8 (b.val : Int) = b.val := by
  have h := b.isLt
  unfold toU8
  omega

theorem toU64_byte (b : Byte) : toU64 (b.val : Int) = b.val := by
  have h := b.isLt
  unfold toU64
  omega

theorem orderLoop_spec (k i : Nat) (md : FStream) (mod : Module)
    (hg : md.good = true) (hlen : md.pos + k ≤ md.data.length) :
    orderLoop k i md mod =
      ({ md with pos := md.pos + k },
       { mod with
         orders := mod.orders ++
           (((md.data.drop md.pos).take k).take (mod.norders - i)).map (fun b => b.val)
         npatterns := feedPatternCount mod.npatterns
           (((md.data.drop md.pos).take k).drop (mod.norders - i)) }) := by
  induction k generalizing i md mod with
  | zero => simp [orderLoop, feedPatternCount]
  | succ k ih =>
    have hlt : md.pos < md.data.length := by omega
    have hcons : (md.data.drop md.pos).take (k + 1)
        = md.data.get ⟨md.pos, hlt⟩ :: (md.data.drop (md.pos + 1)).take k := by
      rw [List.drop_eq_getElem_cons hlt, List.take_succ_cons]
      rfl
    rw [orderLoop, FStream.get_of_lt md hg hlt, hcons]
    simp only [toU8_byte]
    have hg' : ({ md with pos := md.pos + 1 } : FStream).good = true := hg
    have hlen' : ({ md with pos := md.pos + 1 } : FStream).pos + k
        ≤ ({ md with pos := md.pos + 1 } : FStream).data.length := by
      show md.pos + 1 + k ≤ md.data.length
      omega
    by_cases hi : i < mod.norders
    · rw [if_pos hi, ih (i + 1) { md with pos := md.pos + 1 } _ hg' hlen']
      have e : mod.norders - i = (mod.norders - (i + 1)) + 1 := by omega
      rw [e, List.take_succ_cons, List.drop_succ_cons]
      simp [Nat.add_assoc, Nat.add_comm 1 k]
    · rw [if_neg hi, ih (i + 1) { md with pos := md.pos + 1 } _ hg' hlen']
      have e : mod.norders - i = 0 := by omega
      have e' : mod.norders - (i + 1) = 0 := by omega
      simp only [e, e', List.take_zero, List.drop_zero, List.map_nil, List.append_nil]
      simp [feedPatternCount, Nat.add_assoc, Nat.add_comm 1 k]

theorem feedPatternCount_eq_max (np : Nat) (bs : List Byte) :
    feedPatternCount np bs = max np (feedPatternCount 0 bs) := by
  induction bs generalizing np with
  | nil => simp [feedPatternCount]
  | cons b bs ih =>
    have h1 : feedPatternCount np (b :: bs)
        = feedPatternCount (if np > b.val + 1 then np else b.val + 1) bs := rfl
    have h2 : feedPatternCount 0 (b :: bs) = feedPatternCount (b.val + 1) bs := by
      show feedPatternCount (if 0 > b.val + 1 then 0 else b.val + 1) bs = _
      rw [if_neg (by omega)]
    rw [h1, h2, ih, ih (b.val + 1)]
    split <;> omega

/-- The order stage on a good stream that still holds the 130 bytes of the order section:
the active orders are the first `n` order bytes, and the pattern count is fed by the
`128 - n` bytes after them, starting from the value `mod.npatterns` had before. -/
theorem orderStage_spec (md : FStream) (mod : Module) (n restart : Byte) (rest : List Byte)
    (hg : md.good = true) (hdata : md.data.drop md.pos = n :: restart :: rest)
    (hrest : 128 ≤ rest.length) :
    orderStage md mod = .ok (true, { md with pos := md.pos + 130 },
      { mod with
        norders := n.val
        orders := ((rest.take 128).take n.val).map (fun b => b.val)
        npatterns := feedPatternCount mod.npatterns ((rest.take 128).drop n.val) }) := by
  have hlen : md.data.length = md.pos + (rest.length + 2) := by
    have h := congrArg List.length hdata
    simp only [List.length_drop, List.length_cons] at h
    omega
  have h0 : md.pos < md.data.length := by omega
  have h1 : md.pos + 1 < md.data.length := by omega
  have e0 : md.data.get ⟨md.pos, h0⟩ = n := by
    have h := List.drop_eq_getElem_cons h0
    rw [hdata] at h
    exact (List.cons.inj h).1.symm
  have e1 : md.data.get ⟨md.pos + 1, h1⟩ = restart := by
    have h := List.drop_eq_getElem_cons h0
    rw [hdata, List.drop_eq_getElem_cons h1] at h
    exact (List.cons.inj (List.cons.inj h).2).1.symm
  have e2 : md.data.drop (md.pos + 1 + 1) = rest := by
    have h := List.drop_eq_getElem_cons h0
    rw [hdata, List.drop_eq_getElem_cons h1] at h
    exact (List.cons.inj (List.cons.inj h).2).2.symm
  have hn := n.isLt
  unfold orderStage
  simp only [FStream.get_of_lt md hg h0, e0, toU64_byte]
  rw [if_neg (by omega)]
  have hg' : ({ md with pos := md.pos + 1 } : FStream).good = true := hg
  simp only [FStream.get_of_lt _ hg' h1, e1]
  have hg'' : ({ md with pos := md.pos + 1 + 1 } : FStream).good = true := hg
  rw [orderLoop_spec 128 0 _ _ hg'' (by simp only; omega)]
  simp only [e2, Nat.sub_zero, List.nil_append]
  have hp : md.pos + 1 + 1 + 128 = md.pos + 130 := by omega
  have hg3 : ({ md with pos := md.pos + 130 } : FStream).good = true := hg
  rw [hp, hg3]

set_option maxRecDepth 20000 in
/-- The order section used to test the pattern count: order count 1, restart byte 0, the
active order byte 0, then the unused bytes 9, 0, 0, ... -/
theorem orderSection_unused_nine :
    (([0, 9] ++ List.replicate 126 (0 : Byte)).take 128).take (1 : Byte).val = [0] ∧
    feedPatternCount 0
      ((([0, 9] ++ List.replicate 126 (0 : Byte)).take 128).drop (1 : Byte).val) = 10 := by
  constructor <;> decide

set_option maxRecDepth 20000 in
theorem orderStage_unused_nine (mod : Module) :
    orderStage (FStream.ofBytes ([1, 0, 0, 9] ++ List.replicate 126 (0 : Byte))) mod
      = .ok (true,
          { (FStream.ofBytes ([1, 0, 0, 9] ++ List.replicate 126 (0 : Byte))) with pos := 130 },
          { mod with norders := 1, orders := [0], npatterns := max mod.npatterns 10 }) := by
  have h := orderStage_spec (FStream.ofBytes ([1, 0, 0, 9] ++ List.replicate 126 (0 : Byte)))
    mod 1 0 ([0, 9] ++ List.replicate 126 (0 : Byte)) rfl (by simp [FStream.ofBytes])
    (by simp only [List.length_append, List.length_replicate, List.length_cons,
          List.length_nil]; omega)
  rw [h, orderSection_unused_nine.1, feedPatternCount_eq_max, orderSection_unused_nine.2]
  rfl

/-- C4 (pattern count). On an order section with order count 1, active order byte 0 and
first unused order byte 9, the order stage leaves pattern count `max p 10`, where `p` is
the value the uninitialised `mod.npatterns` held, whereas the largest active order plus one
is 1: the byte of an active index is stored without touching `npatterns`, and the bytes of
the unused indices are the ones fed into it. -/
theorem C4_pattern_count_from_unused_orders (mod : Module) :
    ∃ md' mod',
      orderStage (FStream.ofBytes ([1, 0, 0, 9] ++ List.replicate 126 (0 : Byte))) mod
        = .ok (true, md', mod') ∧
      mod'.norders = 1 ∧ mod'.orders = [0] ∧
      mod'.npatterns = max mod.npatterns 10 ∧
      maxOrderPlusOne [0] = 1 ∧ mod'.npatterns ≠ maxOrderPlusOne [0] := by
  have e' : maxOrderPlusOne [0] = 1 := by decide
  refine ⟨_, _, orderStage_unused_nine mod, rfl, rfl, rfl, e', ?_⟩
  show max mod.npatterns 10 ≠ _
  rw [e']
  omega

/-! ### Soundness of the exact arithmetic with respect to the real numbers -/

theorem Real96.ofInt_denotes (n : Int) : (Real96.ofInt n).Denotes (n : ℝ) := by
  refine ⟨Nat.one_pos, ?_⟩
  simp [Real96.ofInt]

theorem Real96.ofDecimal_denotes (digits : Int) (places : Nat) :
    (Real96.ofDecimal digits places).Denotes ((digits : ℝ) / 10 ^ places) := by
  refine ⟨by simp [Real96.ofDecimal], ?_⟩
  simp [Real96.ofDecimal]

theorem Real96.mul_denotes (x y : Real96) (r s : ℝ) (hx : x.Denotes r) (hy : y.Denotes s) :
    (x * y).Denotes (r * s) := by
  obtain ⟨hxd, hr⟩ := hx
  obtain ⟨hyd, hs⟩ := hy
  refine ⟨Nat.mul_pos hxd hyd, ?_⟩
  show r * s = ((x.num * y.num : Int) : ℝ) / ((x.den * y.den : Nat) : ℝ)
    * (2 : ℝ) ^ (((x.exp + y.exp : Int) : ℝ) / 96)
  have hxd' : (x.den : ℝ) ≠ 0 := by exact_mod_cast hxd.ne'
  have hyd' : (y.den : ℝ) ≠ 0 := by exact_mod_cast hyd.ne'
  rw [hr, hs]
  push_cast
  rw [add_div, Real.rpow_add (by norm_num : (0 : ℝ) < 2)]
  field_simp
  ring

theorem Real96.div_denotes (x y : Real96) (r s : ℝ) (hx : x.Denotes r) (hy : y.Denotes s)
    (hy0 : y.num ≠ 0) : (x / y).Denotes (r / s) := by
  obtain ⟨hxd, hr⟩ := hx
  obtain ⟨hyd, hs⟩ := hy
  refine ⟨Nat.mul_pos hxd (Int.natAbs_pos.mpr hy0), ?_⟩
  show r / s = ((x.num * y.num.sign * y.den : Int) : ℝ) / ((x.den * y.num.natAbs : Nat) : ℝ)
    * (2 : ℝ) ^ (((x.exp - y.exp : Int) : ℝ) / 96)
  have hxd' : (x.den : ℝ) ≠ 0 := by exact_mod_cast hxd.ne'
  have hyd' : (y.den : ℝ) ≠ 0 := by exact_mod_cast hyd.ne'
  have hyn' : (y.num : ℝ) ≠ 0 := by exact_mod_cast hy0
  have habs : ((y.num.natAbs : Nat) : ℝ) = (y.num.sign : ℝ) * (y.num : ℝ) := by
    have h : ((y.num.natAbs : Nat) : Int) = y.num.sign * y.num := by
      rcases Int.lt_trichotomy y.num 0 with h | h | h
      · rw [Int.sign_eq_neg_one_of_neg h, Int.ofNat_natAbs_of_nonpos h.le]; ring
      · exact absurd h hy0
      · rw [Int.sign_eq_one_of_pos h, Int.natAbs_of_nonneg h.le]; ring
    rw [← Int.cast_natCast, h]
    push_cast
    ring
  have hsign : (y.num.sign : ℝ) ≠ 0 := by
    have : y.num.sign ≠ 0 := by
      rw [Ne, Int.sign_eq_zero_iff_zero]; exact hy0
    exact_mod_cast this
  have hss : (y.num.sign : ℝ) * (y.num.sign : ℝ) = 1 := by
    have h : y.num.sign * y.num.sign = 1 := by
      rcases Int.lt_trichotomy y.num 0 with h | h | h
      · rw [Int.sign_eq_neg_one_of_neg h]; rfl
      · exact absurd h hy0
      · rw [Int.sign_eq_one_of_pos h]; rfl
    exact_mod_cast h
  have h2 : (2 : ℝ) ^ ((y.exp : ℝ) / 96) ≠ 0 := (Real.rpow_pos_of_pos (by norm_num) _).ne'
  rw [hr, hs]
  push_cast
  rw [habs, sub_div, Real.rpow_sub (by norm_num : (0 : ℝ) < 2)]
  field_simp
  ring


theorem pow2_denotes (x : Real96) (r : ℝ) (hx : x.Denotes r) (he : x.exp = 0)
    (hdvd : (x.den : Int) ∣ 96 * x.num) : (pow2 x).Denotes ((2 : ℝ) ^ r) := by
  obtain ⟨hxd, hr⟩ := hx
  refine ⟨Nat.one_pos, ?_⟩
  show (2 : ℝ) ^ r = ((1 : Int) : ℝ) / ((1 : Nat) : ℝ)
    * (2 : ℝ) ^ (((96 * x.num / (x.den : Int) : Int) : ℝ) / 96)
  have hxd' : ((x.den : Int) : ℝ) ≠ 0 := by exact_mod_cast hxd.ne'
  rw [Int.cast_div hdvd hxd', hr, he]
  push_cast
  have hxd'' : (x.den : ℝ) ≠ 0 := by exact_mod_cast hxd.ne'
  have hexp : 96 * (x.num : ℝ) / (x.den : ℝ) / 96 = (x.num : ℝ) / (x.den : ℝ) := by
    field_simp
    ring
  simp [hexp]

theorem irootAux_spec (y : Nat) :
    ∀ (bit acc : Nat), acc ^ 96 ≤ y → y < (acc + 2 ^ bit) ^ 96 →
      (irootAux y bit acc) ^ 96 ≤ y ∧ y < (irootAux y bit acc + 1) ^ 96 := by
  intro bit
  induction bit with
  | zero =>
    intro acc h1 h2
    exact ⟨h1, by simpa using h2⟩
  | succ bit ih =>
    intro acc h1 h2
    rw [irootAux]
    split
    · rename_i h
      apply ih _ h
      have e : acc + 2 ^ bit + 2 ^ bit = acc + 2 ^ (bit + 1) := by
        rw [pow_succ]; omega
      rw [e]
      exact h2
    · rename_i h
      exact ih _ h1 (by omega)

/-- For a natural `w`, `w ≤ 2 * r` is the integer comparison `floorTwice` searches with. -/
theorem natCast_le_twice_iff (x : Real96) (r : ℝ) (hx : x.Denotes r) (hnum : 0 ≤ x.num)
    (w : Nat) :
    (w : ℝ) ≤ 2 * r ↔
      w ^ 96 ≤ (if 0 ≤ x.exp then (2 * x.num.toNat) ^ 96 * 2 ^ x.exp.toNat / x.den ^ 96
        else (2 * x.num.toNat) ^ 96 / (x.den ^ 96 * 2 ^ (-x.exp).toNat)) := by
  obtain ⟨hxd, hr⟩ := hx
  have hb : (0 : ℝ) < (x.den : ℝ) := by exact_mod_cast hxd
  have ha : ((x.num.toNat : Nat) : ℝ) = (x.num : ℝ) := by
    have h : ((x.num.toNat : Nat) : Int) = x.num := Int.toNat_of_nonneg hnum
    exact_mod_cast h
  have hn0 : (0 : ℝ) ≤ (x.num : ℝ) := by exact_mod_cast hnum
  have h2pos : (0 : ℝ) < (2 : ℝ) ^ ((x.exp : ℝ) / 96) := Real.rpow_pos_of_pos (by norm_num) _
  have hr0 : 0 ≤ 2 * r := by
    rw [hr]; positivity
  have hpow : ((2 : ℝ) ^ ((x.exp : ℝ) / 96)) ^ 96 = (2 : ℝ) ^ (x.exp : ℝ) := by
    rw [← Real.rpow_natCast, ← Real.rpow_mul (by norm_num)]
    congr 1
    push_cast
    ring
  have hX : (2 * r) ^ 96
      = ((2 * x.num.toNat : Nat) : ℝ) ^ 96 / (x.den : ℝ) ^ 96 * (2 : ℝ) ^ (x.exp : ℝ) := by
    rw [hr]
    push_cast
    rw [ha, ← hpow]
    field_simp
    ring
  rw [← pow_le_pow_iff_left₀ (Nat.cast_nonneg w) hr0 (by norm_num : (96 : ℕ) ≠ 0), hX]
  have hb96 : (0 : ℝ) < (x.den : ℝ) ^ 96 := by positivity
  split
  · rename_i he
    have hk : (x.exp : ℝ) = ((x.exp.toNat : Nat) : ℝ) := by
      have h : ((x.exp.toNat : Nat) : Int) = x.exp := Int.toNat_of_nonneg he
      exact_mod_cast h.symm
    rw [hk, Real.rpow_natCast, Nat.le_div_iff_mul_le (by positivity),
      div_mul_eq_mul_div, le_div_iff₀ hb96]
    exact_mod_cast Iff.rfl
  · rename_i he
    have hk : (x.exp : ℝ) = -((((-x.exp).toNat : Nat)) : ℝ) := by
      have h : (((-x.exp).toNat : Nat) : Int) = -x.exp := Int.toNat_of_nonneg (by omega)
      have h' : x.exp = -(((-x.exp).toNat : Nat) : Int) := by omega
      exact_mod_cast h'
    rw [hk, Real.rpow_neg (by norm_num), Real.rpow_natCast,
      Nat.le_div_iff_mul_le (by positivity), ← div_eq_mul_inv, div_div,
      le_div_iff₀ (by positivity)]
    exact_mod_cast Iff.rfl

theorem floorTwice_spec (x : Real96) (r : ℝ) (hx : x.Denotes r) (hnum : 0 ≤ x.num)
    (hrange : 2 * r < 2 ^ 17) :
    (floorTwice x : ℝ) ≤ 2 * r ∧ 2 * r < (floorTwice x : ℝ) + 1 := by
  have hiff := natCast_le_twice_iff x r hx hnum
  have hlt : ¬ ((2 ^ 17 : Nat) : ℝ) ≤ 2 * r := by
    have e : ((2 ^ 17 : Nat) : ℝ) = 2 ^ 17 := by norm_num
    rw [e]
    exact not_le.mpr hrange
  rw [hiff] at hlt
  have hs := irootAux_spec _ 17 0 (by simp) (by simpa using not_le.mp hlt)
  constructor
  · exact (hiff _).mpr hs.1
  · have h := (hiff (floorTwice x + 1)).not.mpr (not_le.mpr hs.2)
    push_cast at h
    exact not_le.mp h

/-- The soundness of `roundU16`: on a non-negative `x` whose value `r` satisfies
`r + 1/2 < 65536`, it is `floor (r + 1/2)`. -/
theorem roundU16_spec (x : Real96) (r : ℝ) (hx : x.Denotes r) (hnum : 0 ≤ x.num)
    (hrange : r + 1 / 2 < 65536) : roundU16 x = ⌊r + 1 / 2⌋₊ := by
  obtain ⟨h1, h2⟩ := floorTwice_spec x r hx hnum (by norm_num; linarith)
  have hr0 : 0 ≤ r := by
    obtain ⟨hxd, hr⟩ := hx
    have hn0 : (0 : ℝ) ≤ (x.num : ℝ) := by exact_mod_cast hnum
    rw [hr]; positivity
  have hv1 : (((floorTwice x + 1) / 2 : Nat) : ℝ) ≤ r + 1 / 2 := by
    have h : 2 * ((floorTwice x + 1) / 2) ≤ floorTwice x + 1 := Nat.mul_div_le _ _
    have h' : (2 : ℝ) * (((floorTwice x + 1) / 2 : Nat) : ℝ) ≤ (floorTwice x : ℝ) + 1 := by
      exact_mod_cast h
    linarith
  have hv2 : r + 1 / 2 < (((floorTwice x + 1) / 2 : Nat) : ℝ) + 1 := by
    have h : floorTwice x ≤ 2 * ((floorTwice x + 1) / 2) := by omega
    have h' : (floorTwice x : ℝ) ≤ 2 * (((floorTwice x + 1) / 2 : Nat) : ℝ) := by
      exact_mod_cast h
    linarith
  have hsmall : (floorTwice x + 1) / 2 < 2 ^ 16 := by
    have h : (((floorTwice x + 1) / 2 : Nat) : ℝ) < ((2 ^ 16 : Nat) : ℝ) := by
      push_cast
      linarith
    exact_mod_cast h
  unfold roundU16
  rw [Nat.mod_eq_of_lt hsmall]
  symm
  rw [Nat.floor_eq_iff (by linarith)]
  exact ⟨hv1, hv2⟩

/-! ### The constants of the generator -/

theorem semitone_step_denotes : semitone_step.Denotes ((2 : ℝ) ^ ((-1 : ℝ) / 12)) := by
  have h1 := Real96.ofInt_denotes (-1)
  have h12 := Real96.ofInt_denotes 12
  have hq := Real96.div_denotes _ _ _ _ h1 h12 (by decide)
  have h := pow2_denotes _ _ hq rfl (by decide)
  unfold semitone_step
  convert h using 2
  push_cast
  rfl

theorem tune_step_denotes : tune_step.Denotes ((2 : ℝ) ^ ((-1 : ℝ) / 8 * 1 / 12)) := by
  have h1 := Real96.ofInt_denotes (-1)
  have h8 := Real96.ofInt_denotes 8
  have hone := Real96.ofInt_denotes 1
  have h12 := Real96.ofInt_denotes 12
  have hq := Real96.div_denotes _ _ _ _
    (Real96.mul_denotes _ _ _ _ (Real96.div_denotes _ _ _ _ h1 h8 (by decide)) hone)
    h12 (by decide)
  have h := pow2_denotes _ _ hq rfl (by decide)
  unfold tune_step
  convert h using 2
  push_cast
  rfl

theorem UST_TO_PT_RATIO_denotes :
    UST_TO_PT_RATIO.Denotes ((3579545 : ℝ) / 523.3 / 8 / 856) := by
  have hclk := Real96.ofInt_denotes 3579545
  have hdec := Real96.ofDecimal_denotes 5233 1
  have h8 := Real96.ofInt_denotes 8
  have h856 := Real96.ofInt_denotes 856
  have h := Real96.div_denotes _ _ _ _
    (Real96.div_denotes _ _ _ _ (Real96.div_denotes _ _ _ _ hclk hdec (by decide)) h8
      (by decide)) h856 (by decide)
  unfold UST_TO_PT_RATIO REF_PERIOD_UST REF_PERIOD_PT NTSC_CLK
  convert h using 2
  norm_num

/-- The first period the generator stores, `(unsigned short)(p1 + 0.5)` with
`p1 = 856 / 2 ^ (-1/12)`, is the floor of the real number `856 / 2 ^ (-1/12) + 1/2`. -/
theorem roundU16_initial_period :
    roundU16 (REF_PERIOD_PT / semitone_step) = ⌊(856 : ℝ) / (2 : ℝ) ^ ((-1 : ℝ) / 12) + 1 / 2⌋₊ := by
  have h856 : REF_PERIOD_PT.Denotes (856 : ℝ) := by
    have h := Real96.ofInt_denotes 856
    unfold REF_PERIOD_PT
    convert h using 1
  have h := Real96.div_denotes _ _ _ _ h856 semitone_step_denotes (by decide)
  apply roundU16_spec _ _ h (by decide)
  have hge : (2 : ℝ) ^ ((-1 : ℝ)) ≤ (2 : ℝ) ^ ((-1 : ℝ) / 12) :=
    Real.rpow_le_rpow_of_exponent_le (by norm_num) (by norm_num)
  have hhalf : (2 : ℝ) ^ ((-1 : ℝ)) = 1 / 2 := by
    rw [Real.rpow_neg (by norm_num), Real.rpow_one]; norm_num
  rw [hhalf] at hge
  have hpos : (0 : ℝ) < (2 : ℝ) ^ ((-1 : ℝ) / 12) := Real.rpow_pos_of_pos (by norm_num) _
  have hdiv : (856 : ℝ) / (2 : ℝ) ^ ((-1 : ℝ) / 12) ≤ 1712 := by
    rw [div_le_iff₀ hpos]
    linarith
  linarith

/-! ### The period table -/

set_option maxRecDepth 100000 in
/-- The generator, run on the table holding 0 everywhere, produces the rows `ptRows`. -/
theorem generate_zeroTable :
    ∀ t < 16, ∀ n < 36, GeneratePTPeriodTable zeroTable t n = ptEntry t n := by
  decide!

/-! ### The generated rows do not depend on what the table held before -/

theorem Table.set_agree (p q : Table) (i j v w a b : Nat)
    (h : (a = i ∧ b = j ∧ v = w) ∨ (¬ (a = i ∧ b = j) ∧ p a b = q a b)) :
    p.set i j v a b = q.set i j w a b := by
  unfold Table.set
  rcases h with ⟨h1, h2, h3⟩ | ⟨h1, h2⟩
  · rw [if_pos ⟨h1, h2⟩, if_pos ⟨h1, h2⟩, h3]
  · rw [if_neg h1, if_neg h1, h2]

theorem Table.set_same (p q : Table) (i j v a b : Nat)
    (h : p a b = q a b ∨ (a = i ∧ b = j)) :
    p.set i j v a b = q.set i j v a b := by
  apply Table.set_agree
  by_cases hab : a = i ∧ b = j
  · exact Or.inl ⟨hab.1, hab.2, rfl⟩
  · exact Or.inr ⟨hab, h.resolve_right hab⟩

theorem semitoneLoop_agree (t k : Nat) :
    ∀ (n : Nat) (p q : Table) (p2 : Real96) (a b : Nat),
      (p a b = q a b ∨ ((a = t ∨ a = t + 8) ∧ n ≤ b ∧ b < n + k)) →
      (semitoneLoop t k n (p, p2)).1 a b = (semitoneLoop t k n (q, p2)).1 a b := by
  induction k with
  | zero =>
    intro n p q p2 a b h
    rcases h with h | ⟨_, h1, h2⟩
    · exact h
    · omega
  | succ k ih =>
    intro n p q p2 a b h
    simp only [semitoneLoop]
    apply ih
    by_cases hb : b = n
    · by_cases ha : a = t ∨ a = t + 8
      · left
        subst hb
        by_cases ht : t = 0
        · rw [if_pos ht, if_pos ht]
          subst ht
          rcases ha with ha | ha
          · exact Table.set_same _ _ _ _ _ _ _ (Or.inr ⟨ha, rfl⟩)
          · apply Table.set_same; left
            apply Table.set_same; left
            exact Table.set_same _ _ _ _ _ _ _ (Or.inr ⟨ha, rfl⟩)
        · rw [if_neg ht, if_neg ht]
          rcases ha with ha | ha
          · exact Table.set_same _ _ _ _ _ _ _ (Or.inr ⟨ha, rfl⟩)
          · apply Table.set_same; left
            exact Table.set_same _ _ _ _ _ _ _ (Or.inr ⟨ha, rfl⟩)
      · left
        have hpq : p a b = q a b := h.resolve_right (fun h' => ha h'.1)
        split
        · apply Table.set_same; left
          apply Table.set_same; left
          exact Table.set_same _ _ _ _ _ _ _ (Or.inl hpq)
        · apply Table.set_same; left
          exact Table.set_same _ _ _ _ _ _ _ (Or.inl hpq)
    · rcases h with hpq | ⟨ha, h1, h2⟩
      · left
        split
        · apply Table.set_same; left
          apply Table.set_same; left
          exact Table.set_same _ _ _ _ _ _ _ (Or.inl hpq)
        · apply Table.set_same; left
          exact Table.set_same _ _ _ _ _ _ _ (Or.inl hpq)
      · right
        exact ⟨ha, by omega, by omega⟩

theorem semitoneLoop_snd (t k : Nat) :
    ∀ (n : Nat) (p q : Table) (p2 : Real96),
      (semitoneLoop t k n (p, p2)).2 = (semitoneLoop t k n (q, p2)).2 := by
  induction k with
  | zero => intro n p q p2; rfl
  | succ k ih =>
    intro n p q p2
    simp only [semitoneLoop]
    apply ih

theorem tuningLoop_agree (k : Nat) :
    ∀ (t : Nat) (p q : Table) (p1 : Real96) (a b : Nat),
      (p a b = q a b ∨
        (((t ≤ a ∧ a < t + k) ∨ (t + 8 ≤ a ∧ a < t + 8 + k)) ∧ b < 36)) →
      (tuningLoop k t (p, p1)).1 a b = (tuningLoop k t (q, p1)).1 a b := by
  induction k with
  | zero =>
    intro t p q p1 a b h
    rcases h with h | ⟨h1 | h1, _⟩
    · exact h
    · omega
    · omega
  | succ k ih =>
    intro t p q p1 a b h
    simp only [tuningLoop]
    apply ih
    by_cases ha : a = t ∨ a = t + 8
    · by_cases hb : b < 36
      · left
        exact semitoneLoop_agree t 36 0 p q p1 a b (Or.inr ⟨ha, by omega, by omega⟩)
      · left
        have hpq : p a b = q a b := h.resolve_right (fun h' => hb h'.2)
        exact semitoneLoop_agree t 36 0 p q p1 a b (Or.inl hpq)
    · rcases h with hpq | ⟨h1, hb⟩
      · left
        exact semitoneLoop_agree t 36 0 p q p1 a b (Or.inl hpq)
      · right
        refine ⟨?_, hb⟩
        rcases h1 with h1 | h1
        · left; omega
        · right; omega

theorem octaveLoop_agree (k : Nat) :
    ∀ (n : Nat) (p q : Table), n + k + 12 ≤ 36 → AgreeOnRows p q →
      AgreeOnRows (octaveLoop k n p) (octaveLoop k n q) := by
  induction k with
  | zero => intro n p q _ h; exact h
  | succ k ih =>
    intro n p q hn h
    simp only [octaveLoop]
    apply ih (n + 1) _ _ (by omega)
    intro a b ha hb
    apply Table.set_agree
    by_cases hab : a = 0 ∧ b = n
    · exact Or.inl ⟨hab.1, hab.2, by rw [h 0 (n + 12) (by omega) (by omega)]⟩
    · exact Or.inr ⟨hab, h a b ha hb⟩

theorem copyLoop_agree (k : Nat) :
    ∀ (n : Nat) (p q : Table), n + k ≤ 36 → AgreeOnRows p q →
      AgreeOnRows (copyLoop k n p) (copyLoop k n q) := by
  induction k with
  | zero => intro n p q _ h; exact h
  | succ k ih =>
    intro n p q hn h
    simp only [copyLoop]
    apply ih (n + 1) _ _ (by omega)
    intro a b ha hb
    apply Table.set_agree
    by_cases hab : a = 8 ∧ b = n
    · exact Or.inl ⟨hab.1, hab.2, h 0 (n - 1) (by omega) (by omega)⟩
    · exact Or.inr ⟨hab, h a b ha hb⟩

theorem Table.decr_agree (p q : Table) (i j : Nat) (hi : i < 16) (hj : j < 36)
    (h : AgreeOnRows p q) : AgreeOnRows (p.decr i j) (q.decr i j) := by
  intro a b ha hb
  unfold Table.decr
  apply Table.set_agree
  by_cases hab : a = i ∧ b = j
  · exact Or.inl ⟨hab.1, hab.2, by rw [h i j hi hj]⟩
  · exact Or.inr ⟨hab, h a b ha hb⟩

theorem Table.incr_agree (p q : Table) (i j : Nat) (hi : i < 16) (hj : j < 36)
    (h : AgreeOnRows p q) : AgreeOnRows (p.incr i j) (q.incr i j) := by
  intro a b ha hb
  unfold Table.incr
  apply Table.set_agree
  by_cases hab : a = i ∧ b = j
  · exact Or.inl ⟨hab.1, hab.2, by rw [h i j hi hj]⟩
  · exact Or.inr ⟨hab, h a b ha hb⟩

/-- Whatever the table held before, the generator leaves the same sixteen rows. -/
theorem generate_agree (garbage : Table) :
    AgreeOnRows (GeneratePTPeriodTable garbage) (GeneratePTPeriodTable zeroTable) := by
  unfold GeneratePTPeriodTable
  have h0 : AgreeOnRows (tuningLoop 8 0 (garbage, REF_PERIOD_PT / semitone_step)).1
      (tuningLoop 8 0 (zeroTable, REF_PERIOD_PT / semitone_step)).1 := by
    intro a b ha hb
    apply tuningLoop_agree
    right
    refine ⟨?_, hb⟩
    by_cases h8 : a < 8
    · left; omega
    · right; omega
  have h1 := octaveLoop_agree 9 0 _ _ (by omega) h0
  have h2 := copyLoop_agree 35 1 _ _ (by omega) h1
  have h3 := Table.decr_agree _ _ 1 4 (by omega) (by omega) h2
  have h4 := Table.incr_agree _ _ 1 22 (by omega) (by omega) h3
  have h5 := Table.incr_agree _ _ 1 24 (by omega) (by omega) h4
  have h6 := Table.incr_agree _ _ 2 23 (by omega) (by omega) h5
  have h7 := Table.incr_agree _ _ 4 9 (by omega) (by omega) h6
  have h8 := Table.incr_agree _ _ 7 24 (by omega) (by omega) h7
  have h9 := Table.decr_agree _ _ 9 6 (by omega) (by omega) h8
  have h10 := Table.decr_agree _ _ 9 26 (by omega) (by omega) h9
  exact Table.decr_agree _ _ 12 34 (by omega) (by omega) h10

/-- The table of a `PeriodCorrector`: rows 0 to 15 are `ptRows`, whatever the member held
before the constructor ran. -/
theorem periods_entry (garbage : Table) (t n : Nat) (ht : t < 16) (hn : n < 36) :
    PeriodCorrector.periods garbage t n = ptEntry t n := by
  unfold PeriodCorrector.periods
  rw [generate_agree garbage t n ht hn]
  exact generate_zeroTable t ht n hn

/-! ### `CorrectPeriod` -/

theorem ptEntry_decreasing : ∀ t < 16, ∀ n < 35, ptEntry t n > ptEntry t (n + 1) := by
  decide

theorem ptEntry_base_ne_850 : ∀ n < 36, ptEntry 0 n ≠ 850 := by
  decide

theorem ptEntry_row_one_ne_zero : ∀ f < 16, ptEntry 1 f ≠ 0 := by
  decide

/-- `CorrectPeriod` returns from its first iteration when `periods[0][0]` is the period. -/
theorem CorrectPeriod_first (periods : Table) (period finetune : Nat)
    (h : periods 0 0 = period) : CorrectPeriod periods period finetune = periods 0 finetune := by
  unfold CorrectPeriod
  rw [correctLoop, if_pos h]

/-- `CorrectPeriod` returns from its second iteration when `periods[1][0]` is the period and
`periods[0][0]` is not. -/
theorem CorrectPeriod_second (periods : Table) (period finetune : Nat)
    (h0 : periods 0 0 ≠ period) (h1 : periods 1 0 = period) :
    CorrectPeriod periods period finetune = periods 1 finetune := by
  unfold CorrectPeriod
  rw [correctLoop, if_neg h0, correctLoop, if_pos h1]

/-- C6 (finetune lookup). For the base period 856 (tuning 0, note 0) and finetune 1 the
table entry of tuning 1, note 0 is 850, and `CorrectPeriod(856, 1)` returns 808, the entry
of tuning 0, note 1: the generator fills `periods[tuning][note]`, and `CorrectPeriod`
compares `periods[i][0]` and returns `periods[i][finetune]`, with the indices exchanged. -/
theorem C6_correctPeriod_returns_next_note (garbage : Table) :
    PeriodCorrector.periods garbage 0 0 = 856 ∧
    PeriodCorrector.periods garbage 1 0 = 850 ∧
    CorrectPeriod (PeriodCorrector.periods garbage) 856 1 = 808 ∧
    CorrectPeriod (PeriodCorrector.periods garbage) 856 1
      ≠ PeriodCorrector.periods garbage 1 0 := by
  have h00 : PeriodCorrector.periods garbage 0 0 = 856 :=
    periods_entry garbage 0 0 (by omega) (by omega)
  have h10 : PeriodCorrector.periods garbage 1 0 = 850 :=
    periods_entry garbage 1 0 (by omega) (by omega)
  have h01 : PeriodCorrector.periods garbage 0 1 = 808 :=
    periods_entry garbage 0 1 (by omega) (by omega)
  have hc : CorrectPeriod (PeriodCorrector.periods garbage) 856 1 = 808 := by
    rw [CorrectPeriod_first _ _ _ h00, h01]
  refine ⟨h00, h10, hc, ?_⟩
  rw [hc, h10]
  omega

/-- C7 (unknown periods). 850 is none of the 36 base periods (the entries of tuning 0), and
`CorrectPeriod(850, f)` returns, for every finetune `f` in 0..15, the entry of tuning 1,
note `f`, which is not 0; for `f = 0` it returns 850. The loop finds 850 in `periods[1][0]`,
the first note of tuning 1. -/
theorem C7_correctPeriod_850_not_zero (garbage : Table) :
    (∀ n < 36, PeriodCorrector.periods garbage 0 n ≠ 850) ∧
    CorrectPeriod (PeriodCorrector.periods garbage) 850 0 = 850 ∧
    (∀ f < 16, CorrectPeriod (PeriodCorrector.periods garbage) 850 f ≠ 0) := by
  have h00 : PeriodCorrector.periods garbage 0 0 = 856 :=
    periods_entry garbage 0 0 (by omega) (by omega)
  have h10 : PeriodCorrector.periods garbage 1 0 = 850 :=
    periods_entry garbage 1 0 (by omega) (by omega)
  have hc : ∀ f, CorrectPeriod (PeriodCorrector.periods garbage) 850 f
      = PeriodCorrector.periods garbage 1 f :=
    fun f => CorrectPeriod_second _ _ _ (by rw [h00]; omega) h10
  refine ⟨?_, ?_, ?_⟩
  · intro n hn
    rw [periods_entry garbage 0 n (by omega) hn]
    exact ptEntry_base_ne_850 n hn
  · rw [hc, h10]
  · intro f hf
    rw [hc, periods_entry garbage 1 f (by omega) (by omega)]
    exact ptEntry_row_one_ne_zero f hf

/-- C8 (reference period). With the table the constructor of `PeriodCorrector` builds,
whatever the member held before, `CorrectPeriod(856, 0)` returns 856. -/
theorem C8_correctPeriod_856 (garbage : Table) :
    CorrectPeriod (PeriodCorrector.periods garbage) 856 0 = 856 := by
  have h00 : PeriodCorrector.periods garbage 0 0 = 856 :=
    periods_entry garbage 0 0 (by omega) (by omega)
  rw [CorrectPeriod_first _ _ _ h00, h00]

/-- C9 (rows decrease). In the table `GeneratePTPeriodTable` builds, whatever the table held
before, each of the rows 0..15 is strictly decreasing: the entry of note `n` is greater than
the entry of note `n + 1`, for `n` in 0..34. -/
theorem C9_rows_strictly_decreasing (garbage : Table) (t n : Nat) (ht : t < 16)
    (hn : n < 35) :
    GeneratePTPeriodTable garbage t n > GeneratePTPeriodTable garbage t (n + 1) := by
  have h1 := periods_entry garbage t n ht (by omega)
  have h2 := periods_entry garbage t (n + 1) ht (by omega)
  unfold PeriodCorrector.periods at h1 h2
  rw [h1, h2]
  exact ptEntry_decreasing t ht n hn

/-- C9 on tuning 12 and note 34, whose entry is one of the nine corrected ones. -/
theorem C9_rows_strictly_decreasing_witness :
    (12 : Nat) < 16 ∧ (34 : Nat) < 35 ∧
    GeneratePTPeriodTable zeroTable 12 34 > GeneratePTPeriodTable zeroTable 12 (34 + 1) :=
  ⟨by decide, by decide, C9_rows_strictly_decreasing zeroTable 12 34 (by decide) (by decide)⟩

/-! ### The registered tags -/

theorem resolveTag_generated (N : Nat) (h33 : N < 33) (h10 : 10 ≤ N) :
    (N % 2 = 0 →
      resolveTag (toString N ++ "CN") = { nchannels := N, effectquirks := 0 } ∧
      resolveTag (toString N ++ "CH") = { nchannels := N, effectquirks := 0 }) ∧
    (N % 2 = 1 →
      toString N ++ "CN" ∉ tagRegistry.map Prod.fst ∧
      toString N ++ "CH" ∉ tagRegistry.map Prod.fst) := by
  interval_cases N <;> decide

theorem resolveTag_static :
    resolveTag "6CHN" = { nchannels := 6, effectquirks := 0 } ∧
    resolveTag "8CHN" = { nchannels := 8, effectquirks := 0 } ∧
    resolveTag "OCTA" = { nchannels := 8, effectquirks := 0 } ∧
    resolveTag "OKTA" = { nchannels := 8, effectquirks := 0 } ∧
    resolveTag "CD81" = { nchannels := 8, effectquirks := 0 } ∧
    resolveTag "TDZ1" = { nchannels := 1, effectquirks := 0 } ∧
    resolveTag "TDZ2" = { nchannels := 2, effectquirks := 0 } ∧
    resolveTag "TDZ3" = { nchannels := 3, effectquirks := 0 } ∧
    resolveTag "5CHN" = { nchannels := 5, effectquirks := 0 } ∧
    resolveTag "7CHN" = { nchannels := 7, effectquirks := 0 } ∧
    resolveTag "9CHN" = { nchannels := 9, effectquirks := 0 } := by
  decide

/-- C11 (registered tags). The registry `LoadPatternsAndOrders` builds resolves each of the
eleven static tags to its listed channel count with quirk flags 0, and for every `N` with
`10 ≤ N ≤ 32`: when `N` is even, the decimal digits of `N` followed by `CN` and by `CH`
both resolve to `N` channels with quirk flags 0; when `N` is odd, neither tag is a key of
the registry. -/
theorem C11_registered_tags_resolve (N : Nat) (h10 : 10 ≤ N) (h32 : N ≤ 32) :
    (resolveTag "6CHN" = { nchannels := 6, effectquirks := 0 } ∧
     resolveTag "8CHN" = { nchannels := 8, effectquirks := 0 } ∧
     resolveTag "OCTA" = { nchannels := 8, effectquirks := 0 } ∧
     resolveTag "OKTA" = { nchannels := 8, effectquirks := 0 } ∧
     resolveTag "CD81" = { nchannels := 8, effectquirks := 0 } ∧
     resolveTag "TDZ1" = { nchannels := 1, effectquirks := 0 } ∧
     resolveTag "TDZ2" = { nchannels := 2, effectquirks := 0 } ∧
     resolveTag "TDZ3" = { nchannels := 3, effectquirks := 0 } ∧
     resolveTag "5CHN" = { nchannels := 5, effectquirks := 0 } ∧
     resolveTag "7CHN" = { nchannels := 7, effectquirks := 0 } ∧
     resolveTag "9CHN" = { nchannels := 9, effectquirks := 0 }) ∧
    (N % 2 = 0 →
      resolveTag (toString N ++ "CN") = { nchannels := N, effectquirks := 0 } ∧
      resolveTag (toString N ++ "CH") = { nchannels := N, effectquirks := 0 }) ∧
    (N % 2 = 1 →
      toString N ++ "CN" ∉ tagRegistry.map Prod.fst ∧
      toString N ++ "CH" ∉ tagRegistry.map Prod.fst) :=
  ⟨resolveTag_static, resolveTag_generated N (by omega) h10⟩

/-- C11 at `N = 32`, the last generated tag pair: `32CN` and `32CH` resolve to 32 channels. -/
theorem C11_registered_tags_resolve_witness :
    (10 : Nat) ≤ 32 ∧ (32 : Nat) ≤ 32 ∧
    resolveTag "32CN" = { nchannels := 32, effectquirks := 0 } ∧
    resolveTag "32CH" = { nchannels := 32, effectquirks := 0 } :=
  ⟨by decide, by decide,
    ((C11_registered_tags_resolve 32 (by decide) (by decide)).2.1 (by decide)).1,
    ((C11_registered_tags_resolve 32 (by decide) (by decide)).2.1 (by decide)).2⟩

/-! ### The pattern-cell stage -/

/-- The row loop of a pattern with index below 64 never returns: its condition stays true,
so it ends by running out of the array or of the step budget. -/
theorem rowLoop_never_returns (nchannels i : Nat) (hi : i < 64) :
    ∀ (fuel row : Nat) (md : FStream) (rows : List Row),
      ∃ e, rowLoop nchannels i fuel row md rows = .error e := by
  intro fuel
  induction fuel with
  | zero => intro row md rows; exact ⟨.outOfFuel, rfl⟩
  | succ fuel ih =>
    intro row md rows
    rw [rowLoop, if_pos hi]
    split
    · exact ih _ _ _
    · exact ⟨.outOfBounds, rfl⟩

/-- With enough steps the row loop of a pattern with index below 64 reaches the store to
`rows[64]`. -/
theorem rowLoop_outOfBounds (nchannels i : Nat) (hi : i < 64) :
    ∀ (fuel row : Nat) (md : FStream) (rows : List Row), 1 ≤ fuel → 65 ≤ fuel + row →
      rowLoop nchannels i fuel row md rows = .error .outOfBounds := by
  intro fuel
  induction fuel with
  | zero =>
    intro row md rows h1 h
    omega
  | succ fuel ih =>
    intro row md rows h1 h
    rw [rowLoop, if_pos hi]
    split
    · exact ih _ _ _ (by omega) (by omega)
    · rfl

theorem patternStage_never_returns (fuel nchannels : Nat) (md : FStream) (mod : Module)
    (hp : 1 ≤ mod.npatterns) :
    ∃ e, patternStage fuel nchannels md mod = .error e := by
  unfold patternStage
  cases fuel with
  | zero => exact ⟨.outOfFuel, rfl⟩
  | succ fuel =>
    rw [patternLoop, if_pos (by omega)]
    obtain ⟨e, he⟩ := rowLoop_never_returns nchannels 0 (by omega) fuel 0 md []
    rw [he]
    exact ⟨e, rfl⟩

theorem patternStage_outOfBounds (fuel nchannels : Nat) (md : FStream) (mod : Module)
    (hp : 1 ≤ mod.npatterns) (hf : 66 ≤ fuel) :
    patternStage fuel nchannels md mod = .error .outOfBounds := by
  unfold patternStage
  obtain ⟨fuel, rfl⟩ : ∃ k, fuel = k + 1 := ⟨fuel - 1, by omega⟩
  rw [patternLoop, if_pos (by omega),
    rowLoop_outOfBounds nchannels 0 (by omega) fuel 0 md [] (by omega) (by omega)]

/-- C16 (pattern-cell stage). With 4 channels and pattern count 1, on a stream holding the
`4 * 4 * 64 * 1 = 1024` bytes of one pattern, the pattern-cell stage does not return for
any step budget, and with a budget of 66 steps or more it ends in the store to `rows[64]`,
outside the `new Row[64]`: the row loop tests `i < nrows` with the pattern index `i`, which
stays true, instead of `row < nrows`. -/
theorem C16_row_loop_leaves_the_array (fuel : Nat) (mod : Module) :
    (∃ e, patternStage fuel 4 (FStream.ofBytes (List.replicate 1024 (0 : Byte)))
        { mod with npatterns := 1 } = .error e) ∧
    patternStage (fuel + 66) 4 (FStream.ofBytes (List.replicate 1024 (0 : Byte)))
        { mod with npatterns := 1 } = .error .outOfBounds :=
  ⟨patternStage_never_returns fuel 4 _ _ (Nat.le_refl 1),
    patternStage_outOfBounds (fuel + 66) 4 _ _ (Nat.le_refl 1) (by omega)⟩

/-! ### Rounding to binary64 -/

theorem playModule_returns (p : ModulePlayer) :
    (playModule p).2 = if p.verbosity = .NONE then .PLAY_OK else .PLAY_FAILED := by
  obtain ⟨verbosity, state, loadstate, mod⟩ := p
  cases verbosity <;> cases loadstate <;> rfl

/-- C18 (`playModule`). In load state `LOAD_OK` with verbosity `MESSAGE`, `playModule`
writes the success line, runs on into the section of `LOAD_FAILED_HEADER`, writes its line
and returns `PLAY_FAILED`; with verbosity `NONE` it returns `PLAY_OK` in every load state,
the failure states included. In general the value returned depends on the verbosity alone. -/
theorem C18_playModule_ignores_load_state (loadstate : ModuleLoadState)
    (verbosity : Verbosity) :
    playModule (playerInState .LOAD_OK .MESSAGE)
      = (["Module load was successful, starting playback!",
          "Module Load failed at header, is this a MOD file?"], .PLAY_FAILED) ∧
    playModule (playerInState .LOAD_FAILED_HEADER .NONE) = ([], .PLAY_OK) ∧
    (playModule (playerInState loadstate verbosity)).2
      = (if verbosity = .NONE then .PLAY_OK else .PLAY_FAILED) :=
  ⟨rfl, rfl, playModule_returns _⟩

/-! ### `PlayOneTick` -/

theorem FStream.get_getD (s : FStream) (hg : s.good = true) (h : s.pos < s.data.length) :
    s.get = (((s.data.getD s.pos 0).val : Int), { s with pos := s.pos + 1 }) := by
  rw [FStream.get_of_lt s hg h]
  congr 2
  simp [List.getElem?_eq_getElem h]

theorem FStream.getN_of_le (k : Nat) (s : FStream) (hg : s.good = true)
    (h : s.pos + k ≤ s.data.length) :
    (s.getN k).2 = { s with pos := s.pos + k } := by
  induction k generalizing s with
  | zero => rfl
  | succ k ih =>
    rw [FStream.getN]
    simp only
    rw [FStream.get_getD s hg (by omega)]
    simp only
    rw [ih { s with pos := s.pos + 1 } hg (by show s.pos + 1 + k ≤ s.data.length; omega)]
    simp only [Nat.add_assoc, Nat.add_comm 1 k]

theorem FStream.getN_good (k : Nat) (s : FStream) (h : (s.getN (k + 1)).2.good = true) :
    s.good = true ∧ s.pos + (k + 1) ≤ s.data.length := by
  constructor
  · by_contra hg
    rw [FStream.getN_not_good _ _ (by simpa using hg)] at h
    cases h
  · by_contra hl
    rw [FStream.getN_short k s (by omega)] at h
    cases h

theorem signatureIsSoundtracker_false (signature : List Int) :
    signatureIsSoundtracker signature = false := by
  unfold signatureIsSoundtracker
  rw [List.any_eq_false]
  intro c _
  simp only [Bool.and_eq_true, decide_eq_true_eq, not_and, not_lt]
  intro h
  omega

/-- `LoadModuleHeader` on a stream of at least 1084 bytes: it succeeds, leaves the stream
good at offset 20, and sets the sample count to 31, whatever the signature bytes are. -/
theorem LoadModuleHeader_long (bs : List Byte) (mod : Module) (h : 1084 ≤ bs.length) :
    ∃ name, LoadModuleHeader (FStream.ofBytes bs) mod
      = (true, { data := bs, pos := 20, eofbit := false, failbit := false },
          { mod with name := name, nsamples := 31 }) := by
  have h4 : (((FStream.ofBytes bs).seekg 1080).getN 4).2
      = { data := bs, pos := 1084, eofbit := false, failbit := false } :=
    FStream.getN_of_le 4 _ rfl (by show 1080 + 4 ≤ bs.length; omega)
  have h20 : ((({ data := bs, pos := 1084, eofbit := false, failbit := false } : FStream).seekg
      0).getN 20).2 = { data := bs, pos := 20, eofbit := false, failbit := false } :=
    FStream.getN_of_le 20 _ rfl (by show 0 + 20 ≤ bs.length; omega)
  refine ⟨assignLastChar mod.name
    ((({ data := bs, pos := 1084, eofbit := false, failbit := false } : FStream).seekg
      0).getN 20).1, ?_⟩
  unfold LoadModuleHeader
  simp only [h4, h20, signatureIsSoundtracker_false]
  rfl

theorem LoadModuleHeader_ok_iff (bs : List Byte) (mod : Module) :
    (LoadModuleHeader (FStream.ofBytes bs) mod).1 = true ↔ 1084 ≤ bs.length := by
  constructor
  · intro h
    by_contra hl
    rw [LoadModuleHeader_short bs mod (by omega)] at h
    cases h
  · intro h
    obtain ⟨name, hn⟩ := LoadModuleHeader_long bs mod h
    rw [hn]

/-! ### One sample header -/

theorem FStream.get_at (md : FStream) (hg : md.good = true) (c : Nat)
    (h : md.pos + c < md.data.length) :
    ({ md with pos := md.pos + c } : FStream).get
      = (((md.data.getD (md.pos + c) 0).val : Int), { md with pos := md.pos + (c + 1) }) :=
  FStream.get_getD { md with pos := md.pos + c } hg h

/-- The fields `LoadSampleHeaders` computes are even: each is assigned `(x * 2) % 2 ^ 64`
last. -/
theorem readSampleHeader_even (md : FStream) (smp : Sample) :
    (readSampleHeader md smp).1.length % 2 = 0 ∧
    (readSampleHeader md smp).1.loopstart % 2 = 0 ∧
    (readSampleHeader md smp).1.looplength % 2 = 0 := by
  simp only [readSampleHeader]
  refine ⟨?_, ?_, ?_⟩ <;> omega

/-- One sample header read from a good stream that holds its 30 bytes: the stream advances
by 30, and the three sizes are the previous contents of the field or'ed with the big-endian
word of the header, doubled. -/
theorem readSampleHeader_of_le (md : FStream) (smp : Sample) (hg : md.good = true)
    (h : md.pos + 30 ≤ md.data.length) :
    (readSampleHeader md smp).2 = { md with pos := md.pos + 30 } ∧
    (readSampleHeader md smp).1.length
      = ((smp.length ||| ((md.data.getD (md.pos + 22) 0).val <<< 8) % 2 ^ 64
          ||| (md.data.getD (md.pos + 23) 0).val) * 2) % 2 ^ 64 ∧
    (readSampleHeader md smp).1.loopstart
      = ((smp.loopstart ||| ((md.data.getD (md.pos + 26) 0).val <<< 8) % 2 ^ 64
          ||| (md.data.getD (md.pos + 27) 0).val) * 2) % 2 ^ 64 ∧
    (readSampleHeader md smp).1.looplength
      = ((smp.looplength ||| ((md.data.getD (md.pos + 28) 0).val <<< 8) % 2 ^ 64
          ||| (md.data.getD (md.pos + 29) 0).val) * 2) % 2 ^ 64 := by
  have hN := FStream.getN_of_le 22 md hg (by omega)
  have h22 := FStream.get_at md hg 22 (by omega)
  have h23 := FStream.get_at md hg 23 (by omega)
  have h24 := FStream.get_at md hg 24 (by omega)
  have h25 := FStream.get_at md hg 25 (by omega)
  have h26 := FStream.get_at md hg 26 (by omega)
  have h27 := FStream.get_at md hg 27 (by omega)
  have h28 := FStream.get_at md hg 28 (by omega)
  have h29 := FStream.get_at md hg 29 (by omega)
  simp only [Nat.reduceAdd] at h22 h23 h24 h25 h26 h27 h28 h29
  simp only [readSampleHeader, hN, h22, h23, h24, h25, h26, h27, h28, h29, toU64_byte]
  exact ⟨trivial, trivial, trivial, trivial⟩

/-- When the field held 0 before, the size read from a header is twice its big-endian
word. -/
theorem doubled_word (hi lo : Byte) :
    ((0 ||| (hi.val <<< 8) % 2 ^ 64 ||| lo.val) * 2) % 2 ^ 64
      = 2 * (hi.val * 256 + lo.val) := by
  have h1 := hi.isLt
  have h2 := lo.isLt
  have e : hi.val * 256 + lo.val = (2 ^ 8 * hi.val) ||| lo.val := by
    rw [← Nat.mul_add_lt_is_or (by omega)]; omega
  have m : (hi.val <<< 8) % 2 ^ 64 = 2 ^ 8 * hi.val := by
    rw [Nat.shiftLeft_eq]; omega
  rw [Nat.zero_or, m, ← e]
  omega

/-! ### The loop over the sample headers -/

theorem sampleHeaderLoop_length (k : Nat) :
    ∀ (i : Nat) (md : FStream) (samples : List Sample),
      (sampleHeaderLoop k i md samples).2.2.length = samples.length := by
  induction k with
  | zero => intro i md samples; rfl
  | succ k ih =>
    intro i md samples
    rw [sampleHeaderLoop]
    split
    · rfl
    · simp only
      split
      · simp
      · rw [ih]
        simp

theorem sampleHeaderLoop_before (k : Nat) :
    ∀ (i : Nat) (md : FStream) (samples : List Sample) (j : Nat), j < i →
      (sampleHeaderLoop k i md samples).2.2.get? j = samples.get? j := by
  induction k with
  | zero => intro i md samples j _; rfl
  | succ k ih =>
    intro i md samples j hj
    rw [sampleHeaderLoop]
    split
    · rfl
    · simp only
      split
      · simp only [List.get?_eq_getElem?]
        rw [List.getElem?_set_ne (by omega)]
      · rw [ih _ _ _ _ (by omega)]
        simp only [List.get?_eq_getElem?]
        rw [List.getElem?_set_ne (by omega)]

/-- Every sample the loop of `LoadSampleHeaders` has read, when the loop returns 1, has an
even length, loop start and loop length. -/
theorem sampleHeaderLoop_even (k : Nat) :
    ∀ (i : Nat) (md : FStream) (samples : List Sample),
      (sampleHeaderLoop k i md samples).1 = true →
      ∀ j, i ≤ j → j < i + k → j < samples.length →
        ∃ smp, (sampleHeaderLoop k i md samples).2.2.get? j = some smp ∧
          smp.length % 2 = 0 ∧ smp.loopstart % 2 = 0 ∧ smp.looplength % 2 = 0 := by
  induction k with
  | zero => intro i md samples _ j h1 h2 _; omega
  | succ k ih =>
    intro i md samples hok j h1 h2 h3
    rw [sampleHeaderLoop] at hok ⊢
    split at hok
    · rename_i hnone
      rw [List.get?_eq_none] at hnone
      omega
    · rename_i smp hsome
      simp only at hok ⊢
      split at hok
      · cases hok
      · rename_i hgood
        rw [if_neg hgood]
        by_cases hj : j = i
        · subst hj
          rw [sampleHeaderLoop_before _ _ _ _ _ (by omega)]
          refine ⟨(readSampleHeader md smp).1, ?_, readSampleHeader_even md smp⟩
          simp only [List.get?_eq_getElem?]
          rw [List.getElem?_set_self (by omega)]
        · exact ih _ _ _ hok j (by omega) (by omega) (by simpa using h3)

/-- The loop of `LoadSampleHeaders` on a good stream that holds the `30 * k` bytes of the
headers still to read: it returns 1, the stream advances by `30 * k`, and sample `j` is
what `readSampleHeader` makes of the 30 bytes at offset `30 * (j - i)`. -/
theorem sampleHeaderLoop_of_le (k : Nat) :
    ∀ (i : Nat) (md : FStream) (samples : List Sample), md.good = true →
      md.pos + 30 * k ≤ md.data.length → i + k ≤ samples.length →
      (sampleHeaderLoop k i md samples).1 = true ∧
      (sampleHeaderLoop k i md samples).2.1 = { md with pos := md.pos + 30 * k } ∧
      ∀ j smp0, i ≤ j → j < i + k → samples.get? j = some smp0 →
        (sampleHeaderLoop k i md samples).2.2.get? j
          = some (readSampleHeader { md with pos := md.pos + 30 * (j - i) } smp0).1 := by
  induction k with
  | zero =>
    intro i md samples _ _ _
    refine ⟨rfl, rfl, ?_⟩
    intro j smp0 h1 h2
    omega
  | succ k ih =>
    intro i md samples hg hlen hik
    have hi : i < samples.length := by omega
    have hsome : samples.get? i = some (samples.get ⟨i, hi⟩) := List.get?_eq_get hi
    obtain ⟨hs, -⟩ := readSampleHeader_of_le md (samples.get ⟨i, hi⟩) hg (by omega)
    have hg' : ({ md with pos := md.pos + 30 } : FStream).good = true := hg
    obtain ⟨ih1, ih2, ih3⟩ := ih (i + 1) { md with pos := md.pos + 30 }
      (samples.set i (readSampleHeader md (samples.get ⟨i, hi⟩)).1) hg'
      (by show md.pos + 30 + 30 * k ≤ md.data.length; omega)
      (by rw [List.length_set]; omega)
    have hloop : sampleHeaderLoop (k + 1) i md samples
        = sampleHeaderLoop k (i + 1) { md with pos := md.pos + 30 }
            (samples.set i (readSampleHeader md (samples.get ⟨i, hi⟩)).1) := by
      rw [sampleHeaderLoop, hsome]
      simp only [hs]
      rw [if_neg (by simp [hg'])]
    rw [hloop]
    refine ⟨ih1, ?_, ?_⟩
    · rw [ih2]
      have e : md.pos + 30 + 30 * k = md.pos + 30 * (k + 1) := by omega
      dsimp only
      rw [e]
    · intro j smp0 h1 h2 hj
      by_cases hji : j = i
      · subst hji
        rw [sampleHeaderLoop_before _ _ _ _ _ (by omega)]
        simp only [List.get?_eq_getElem?]
        rw [List.getElem?_set_self (by omega)]
        rw [hsome] at hj
        cases hj
        simp
      · have hj' : (samples.set i (readSampleHeader md (samples.get ⟨i, hi⟩)).1).get? j
            = some smp0 := by
          simp only [List.get?_eq_getElem?]
          rw [List.getElem?_set_ne (by omega)]
          simpa using hj
        rw [ih3 j smp0 (by omega) (by omega) hj']
        have e : md.pos + 30 + 30 * (j - (i + 1)) = md.pos + 30 * (j - i) := by omega
        dsimp only
        rw [e]

/-! ### `LoadSampleHeaders` -/

theorem LoadSampleHeaders_even (u : Uninit) (md : FStream) (mod : Module) (i : Nat)
    (hok : (LoadSampleHeaders u md mod).1 = true) (hi : i < mod.nsamples) :
    ∃ smp, (LoadSampleHeaders u md mod).2.2.samples.get? i = some smp ∧
      smp.length % 2 = 0 ∧ smp.loopstart % 2 = 0 ∧ smp.looplength % 2 = 0 := by
  unfold LoadSampleHeaders at hok ⊢
  exact sampleHeaderLoop_even mod.nsamples 0 md _ hok i (by omega) (by omega) (by simpa using hi)

/-- `LoadSampleHeaders` on a good stream that holds the `30 * nsamples` header bytes: it
returns 1, the stream advances past the headers, and sample `j` is what `readSampleHeader`
makes of the indeterminate sample `u.sample j` and the 30 bytes at offset `30 * j`. -/
theorem LoadSampleHeaders_of_le (u : Uninit) (md : FStream) (mod : Module)
    (hg : md.good = true) (h : md.pos + 30 * mod.nsamples ≤ md.data.length) :
    ∃ samples, LoadSampleHeaders u md mod
        = (true, { md with pos := md.pos + 30 * mod.nsamples }, { mod with samples := samples })
      ∧ ∀ j, j < mod.nsamples →
          samples.get? j
            = some (readSampleHeader { md with pos := md.pos + 30 * j } (u.sample j)).1 := by
  obtain ⟨h1, h2, h3⟩ := sampleHeaderLoop_of_le mod.nsamples 0 md
    ((List.range mod.nsamples).map u.sample) hg h (by simp)
  refine ⟨(sampleHeaderLoop mod.nsamples 0 md ((List.range mod.nsamples).map u.sample)).2.2,
    ?_, ?_⟩
  · unfold LoadSampleHeaders
    simp only [h1, h2]
  · intro j hj
    have hget : ((List.range mod.nsamples).map u.sample).get? j = some (u.sample j) := by
      simp [List.getElem?_range hj]
    have := h3 j (u.sample j) (by omega) (by omega) hget
    simpa using this

/-- The header stage followed by the sample-header stage, on a file of at least 1084 bytes:
both succeed, 31 headers are read, and the stream is left good at offset 950. -/
theorem header_and_sample_headers (u : Uninit) (bs : List Byte) (h : 1084 ≤ bs.length) :
    ∃ name samples,
      LoadModuleHeader (FStream.ofBytes bs) u.mod
        = (true, FStream.atPos bs 20, { u.mod with name := name, nsamples := 31 }) ∧
      LoadSampleHeaders u (FStream.atPos bs 20) { u.mod with name := name, nsamples := 31 }
        = (true, FStream.atPos bs 950,
            { u.mod with name := name, nsamples := 31, samples := samples }) ∧
      ∀ j, j < 31 →
        samples.get? j
          = some (readSampleHeader (FStream.atPos bs (20 + 30 * j)) (u.sample j)).1 := by
  obtain ⟨name, hn⟩ := LoadModuleHeader_long bs u.mod h
  obtain ⟨samples, hs, hj⟩ := LoadSampleHeaders_of_le u (FStream.atPos bs 20)
    { u.mod with name := name, nsamples := 31 } rfl (by show 20 + 30 * 31 ≤ bs.length; omega)
  exact ⟨name, samples, hn, hs, hj⟩

/-- For every byte stream on which the loader reaches the sample headers
(`LoadModuleHeader` has returned 1) and every sample index `i` below the sample count,
`LoadSampleHeaders` returns 1 and leaves sample `i` with an even length, an even loop start
and an even loop length, whatever the storage of the samples held before. -/
theorem sample_sizes_even (u : Uninit) (bs : List Byte) (i : Nat)
    (hh : (LoadModuleHeader (FStream.ofBytes bs) u.mod).1 = true)
    (hi : i < (LoadModuleHeader (FStream.ofBytes bs) u.mod).2.2.nsamples) :
    (LoadSampleHeaders u (LoadModuleHeader (FStream.ofBytes bs) u.mod).2.1
        (LoadModuleHeader (FStream.ofBytes bs) u.mod).2.2).1 = true ∧
    ∃ smp,
      (LoadSampleHeaders u (LoadModuleHeader (FStream.ofBytes bs) u.mod).2.1
        (LoadModuleHeader (FStream.ofBytes bs) u.mod).2.2).2.2.samples.get? i = some smp ∧
      smp.length % 2 = 0 ∧ smp.loopstart % 2 = 0 ∧ smp.looplength % 2 = 0 := by
  have hlen := (LoadModuleHeader_ok_iff bs u.mod).mp hh
  obtain ⟨name, samples, hn, hs, -⟩ := header_and_sample_headers u bs hlen
  rw [hn] at hi ⊢
  have hok : (LoadSampleHeaders u (FStream.atPos bs 20)
      { u.mod with name := name, nsamples := 31 }).1 = true := by rw [hs]
  exact ⟨hok, LoadSampleHeaders_even u _ _ i hok hi⟩

/-- The three sizes of sample `i` after `LoadSampleHeaders`, on a file the header stage
accepts: what the field held before, or'ed with the two bytes of the header word, doubled,
modulo `2 ^ 64`. -/
theorem sample_sizes_of_storage (u : Uninit) (bs : List Byte) (i : Nat)
    (hh : (LoadModuleHeader (FStream.ofBytes bs) u.mod).1 = true) (hi : i < 31) :
    (LoadSampleHeaders u (LoadModuleHeader (FStream.ofBytes bs) u.mod).2.1
        (LoadModuleHeader (FStream.ofBytes bs) u.mod).2.2).1 = true ∧
    ∃ smp,
      (LoadSampleHeaders u (LoadModuleHeader (FStream.ofBytes bs) u.mod).2.1
        (LoadModuleHeader (FStream.ofBytes bs) u.mod).2.2).2.2.samples.get? i = some smp ∧
      smp.length
        = (((u.sample i).length ||| ((bs.getD (20 + 30 * i + 22) 0).val <<< 8) % 2 ^ 64
            ||| (bs.getD (20 + 30 * i + 23) 0).val) * 2) % 2 ^ 64 ∧
      smp.loopstart
        = (((u.sample i).loopstart ||| ((bs.getD (20 + 30 * i + 26) 0).val <<< 8) % 2 ^ 64
            ||| (bs.getD (20 + 30 * i + 27) 0).val) * 2) % 2 ^ 64 ∧
      smp.looplength
        = (((u.sample i).looplength ||| ((bs.getD (20 + 30 * i + 28) 0).val <<< 8) % 2 ^ 64
            ||| (bs.getD (20 + 30 * i + 29) 0).val) * 2) % 2 ^ 64 := by
  have hlen := (LoadModuleHeader_ok_iff bs u.mod).mp hh
  obtain ⟨name, samples, hn, hs, hj⟩ := header_and_sample_headers u bs hlen
  obtain ⟨-, hl, hls, hll⟩ := readSampleHeader_of_le (FStream.atPos bs (20 + 30 * i))
    (u.sample i) rfl (by show 20 + 30 * i + 30 ≤ bs.length; omega)
  rw [hn]
  simp only [hs]
  exact ⟨trivial, _, hj i hi, hl, hls, hll⟩

theorem fileSizes311_length : 1084 ≤ fileSizes311.length := by
  unfold fileSizes311
  simp only [List.length_append, List.length_replicate, List.length_cons, List.length_nil]
  omega

set_option maxRecDepth 20000 in
theorem fileSizes311_bytes :
    fileSizes311.getD (20 + 30 * 0 + 22) 0 = 0 ∧ fileSizes311.getD (20 + 30 * 0 + 23) 0 = 3 ∧
    fileSizes311.getD (20 + 30 * 0 + 26) 0 = 0 ∧ fileSizes311.getD (20 + 30 * 0 + 27) 0 = 1 ∧
    fileSizes311.getD (20 + 30 * 0 + 28) 0 = 0 ∧ fileSizes311.getD (20 + 30 * 0 + 29) 0 = 1 := by
  decide

set_option maxRecDepth 20000 in
theorem fileSizes311_words :
    beWord fileSizes311 (20 + 30 * 0 + 22) = 3 ∧
    beWord fileSizes311 (20 + 30 * 0 + 26) = 1 ∧
    beWord fileSizes311 (20 + 30 * 0 + 28) = 1 := by
  decide

/-- C12 (sizes from the header words). On the file `fileSizes311`, whose header of sample 0
stores the words 3, 1 and 1, loaded when the storage of the samples held length 5, loop
start 8 and loop length 16, `LoadSampleHeaders` returns 1 and sample 0 has length 14, loop
start 18 and loop length 34: even numbers, but not twice the words of its header, which are
6, 2 and 2. -/
theorem C12_sizes_keep_stale_storage :
    (LoadSampleHeaders Uninit.stale
      (LoadModuleHeader (FStream.ofBytes fileSizes311) Uninit.stale.mod).2.1
      (LoadModuleHeader (FStream.ofBytes fileSizes311) Uninit.stale.mod).2.2).1 = true ∧
    ∃ smp,
      (LoadSampleHeaders Uninit.stale
        (LoadModuleHeader (FStream.ofBytes fileSizes311) Uninit.stale.mod).2.1
        (LoadModuleHeader (FStream.ofBytes fileSizes311) Uninit.stale.mod).2.2).2.2.samples.get?
          0 = some smp ∧
      smp.length = 14 ∧ smp.loopstart = 18 ∧ smp.looplength = 34 ∧
      2 * beWord fileSizes311 (20 + 30 * 0 + 22) = 6 ∧
      2 * beWord fileSizes311 (20 + 30 * 0 + 26) = 2 ∧
      2 * beWord fileSizes311 (20 + 30 * 0 + 28) = 2 ∧
      smp.length ≠ 2 * beWord fileSizes311 (20 + 30 * 0 + 22) ∧
      smp.loopstart ≠ 2 * beWord fileSizes311 (20 + 30 * 0 + 26) ∧
      smp.looplength ≠ 2 * beWord fileSizes311 (20 + 30 * 0 + 28) := by
  obtain ⟨hok, smp, hsmp, hl, hls, hll⟩ :=
    sample_sizes_of_storage Uninit.stale fileSizes311 0
      ((LoadModuleHeader_ok_iff fileSizes311 Uninit.stale.mod).mpr fileSizes311_length)
      (by decide)
  obtain ⟨b22, b23, b26, b27, b28, b29⟩ := fileSizes311_bytes
  obtain ⟨w22, w26, w28⟩ := fileSizes311_words
  rw [b22, b23] at hl
  rw [b26, b27] at hls
  rw [b28, b29] at hll
  have hl' : smp.length = 14 := hl.trans (by decide)
  have hls' : smp.loopstart = 18 := hls.trans (by decide)
  have hll' : smp.looplength = 34 := hll.trans (by decide)
  refine ⟨hok, smp, hsmp, hl', hls', hll', ?_, ?_, ?_, ?_, ?_, ?_⟩
  · rw [w22]
  · rw [w26]
  · rw [w28]
  · rw [hl', w22]; decide
  · rw [hls', w26]; decide
  · rw [hll', w28]; decide

/-! ### The classification of the module -/

theorem getD_replicate_zero (n i : Nat) : (List.replicate n (0 : Byte)).getD i 0 = 0 := by
  induction n generalizing i with
  | zero => rfl
  | succ n ih =>
    cases i with
    | zero => rfl
    | succ i => exact ih i

/-- C13 (legacy or extended). On the file of 1084 zero bytes, whose four signature bytes at
offsets 1080 to 1083 are 0 and so lie outside the printable range 32..126,
`LoadModuleHeader` returns 1 with the sample count set to 31, not 15: the test
`(c < 32) && (c > 126)` holds for no `c`, so `soundtracker` is never set. -/
theorem C13_sample_count_is_31 (mod : Module) :
    (∀ k, k < 4 → (fileAllZero.getD (1080 + k) 0).val < 32) ∧
    (LoadModuleHeader (FStream.ofBytes fileAllZero) mod).1 = true ∧
    (LoadModuleHeader (FStream.ofBytes fileAllZero) mod).2.2.nsamples = 31 ∧
    (LoadModuleHeader (FStream.ofBytes fileAllZero) mod).2.2.nsamples ≠ 15 := by
  have hlen : 1084 ≤ fileAllZero.length := by
    unfold fileAllZero
    rw [List.length_replicate]
  obtain ⟨name, hn⟩ := LoadModuleHeader_long fileAllZero mod hlen
  rw [hn]
  refine ⟨?_, rfl, rfl, by show (31 : Nat) ≠ 15; omega⟩
  intro k hk
  unfold fileAllZero
  rw [getD_replicate_zero]
  decide

/-! ### The sizes of a sample are the words of its header -/

/-- The three sizes of sample `i` after `LoadSampleHeaders`, on a file the header stage
accepts and on sample storage that held zeros: twice the big-endian words at offsets 22, 26
and 28 of the header, which starts at offset `20 + 30 * i`. The loop bound
`loopstart + looplength ≤ length` holds exactly when the words satisfy it. -/
theorem sample_sizes_of_header (u : Uninit) (bs : List Byte) (i : Nat)
    (hh : (LoadModuleHeader (FStream.ofBytes bs) u.mod).1 = true) (hi : i < 31)
    (hz : (u.sample i).length = 0 ∧ (u.sample i).loopstart = 0 ∧
      (u.sample i).looplength = 0) :
    (LoadSampleHeaders u (LoadModuleHeader (FStream.ofBytes bs) u.mod).2.1
        (LoadModuleHeader (FStream.ofBytes bs) u.mod).2.2).1 = true ∧
    ∃ smp,
      (LoadSampleHeaders u (LoadModuleHeader (FStream.ofBytes bs) u.mod).2.1
        (LoadModuleHeader (FStream.ofBytes bs) u.mod).2.2).2.2.samples.get? i = some smp ∧
      smp.length = 2 * beWord bs (20 + 30 * i + 22) ∧
      smp.loopstart = 2 * beWord bs (20 + 30 * i + 26) ∧
      smp.looplength = 2 * beWord bs (20 + 30 * i + 28) ∧
      (smp.loopstart + smp.looplength ≤ smp.length ↔
        beWord bs (20 + 30 * i + 26) + beWord bs (20 + 30 * i + 28)
          ≤ beWord bs (20 + 30 * i + 22)) := by
  have hlen := (LoadModuleHeader_ok_iff bs u.mod).mp hh
  obtain ⟨name, samples, hn, hs, hj⟩ := header_and_sample_headers u bs hlen
  obtain ⟨-, hl, hls, hll⟩ := readSampleHeader_of_le (FStream.atPos bs (20 + 30 * i))
    (u.sample i) rfl (by show 20 + 30 * i + 30 ≤ bs.length; omega)
  rw [hn]
  simp only [hs]
  have f1 : (readSampleHeader (FStream.atPos bs (20 + 30 * i)) (u.sample i)).1.length
      = 2 * beWord bs (20 + 30 * i + 22) := by
    rw [hl, hz.1]
    exact doubled_word _ _
  have f2 : (readSampleHeader (FStream.atPos bs (20 + 30 * i)) (u.sample i)).1.loopstart
      = 2 * beWord bs (20 + 30 * i + 26) := by
    rw [hls, hz.2.1]
    exact doubled_word _ _
  have f3 : (readSampleHeader (FStream.atPos bs (20 + 30 * i)) (u.sample i)).1.looplength
      = 2 * beWord bs (20 + 30 * i + 28) := by
    rw [hll, hz.2.2]
    exact doubled_word _ _
  refine ⟨trivial, _, hj i hi, f1, f2, f3, ?_⟩
  rw [f1, f2, f3]
  omega

/-- C15, as the code has it. On a file the header stage accepts, `LoadSampleHeaders` returns
1 and stores, for every sample `i` below 31 whose storage held zeros, twice the big-endian
words of the header as length, loop start and loop length; nothing relates them, so
`loopstart + looplength ≤ length` holds exactly when the words in the file satisfy it. -/
theorem C15_sizes_copied_from_header (u : Uninit) (bs : List Byte) (i : Nat)
    (hh : (LoadModuleHeader (FStream.ofBytes bs) u.mod).1 = true) (hi : i < 31)
    (hz : (u.sample i).length = 0 ∧ (u.sample i).loopstart = 0 ∧
      (u.sample i).looplength = 0) :
    (LoadSampleHeaders u (LoadModuleHeader (FStream.ofBytes bs) u.mod).2.1
        (LoadModuleHeader (FStream.ofBytes bs) u.mod).2.2).1 = true ∧
    ∃ smp,
      (LoadSampleHeaders u (LoadModuleHeader (FStream.ofBytes bs) u.mod).2.1
        (LoadModuleHeader (FStream.ofBytes bs) u.mod).2.2).2.2.samples.get? i = some smp ∧
      smp.length = 2 * beWord bs (20 + 30 * i + 22) ∧
      smp.loopstart = 2 * beWord bs (20 + 30 * i + 26) ∧
      smp.looplength = 2 * beWord bs (20 + 30 * i + 28) ∧
      (smp.loopstart + smp.looplength ≤ smp.length ↔
        beWord bs (20 + 30 * i + 26) + beWord bs (20 + 30 * i + 28)
          ≤ beWord bs (20 + 30 * i + 22)) :=
  sample_sizes_of_header u bs i hh hi hz

theorem fileAllZero_length : 1084 ≤ fileAllZero.length := by
  unfold fileAllZero
  rw [List.length_replicate]

theorem fileLoopPastEnd_length : 1084 ≤ fileLoopPastEnd.length := by
  unfold fileLoopPastEnd
  simp only [List.length_append, List.length_replicate, List.length_cons, List.length_nil]
  omega

set_option maxRecDepth 20000 in
theorem fileLoopPastEnd_words :
    beWord fileLoopPastEnd (20 + 30 * 0 + 22) = 0 ∧
    beWord fileLoopPastEnd (20 + 30 * 0 + 26) = 0 ∧
    beWord fileLoopPastEnd (20 + 30 * 0 + 28) = 1 := by
  decide

/-- C15 on the file of 1084 zero bytes and sample 0: all three sizes are 0. -/
theorem C15_sizes_copied_from_header_witness :
    (LoadModuleHeader (FStream.ofBytes fileAllZero) Uninit.zero.mod).1 = true ∧
    (0 : Nat) < 31 ∧
    ∃ smp,
      (LoadSampleHeaders Uninit.zero
        (LoadModuleHeader (FStream.ofBytes fileAllZero) Uninit.zero.mod).2.1
        (LoadModuleHeader (FStream.ofBytes fileAllZero) Uninit.zero.mod).2.2).2.2.samples.get? 0
          = some smp ∧
      smp.length = 2 * beWord fileAllZero (20 + 30 * 0 + 22) ∧
      smp.loopstart = 2 * beWord fileAllZero (20 + 30 * 0 + 26) ∧
      smp.looplength = 2 * beWord fileAllZero (20 + 30 * 0 + 28) ∧
      (smp.loopstart + smp.looplength ≤ smp.length ↔
        beWord fileAllZero (20 + 30 * 0 + 26) + beWord fileAllZero (20 + 30 * 0 + 28)
          ≤ beWord fileAllZero (20 + 30 * 0 + 22)) :=
  ⟨(LoadModuleHeader_ok_iff fileAllZero Uninit.zero.mod).mpr fileAllZero_length, by decide,
    (C15_sizes_copied_from_header Uninit.zero fileAllZero 0
      ((LoadModuleHeader_ok_iff fileAllZero Uninit.zero.mod).mpr fileAllZero_length)
      (by decide) ⟨rfl, rfl, rfl⟩).2⟩

/-- C15, as stated, fails. On the file `fileLoopPastEnd`, `LoadSampleHeaders` returns 1 and
sample 0 has length 0, loop start 0 and loop length 2: its loop length is positive and
`loopstart + looplength = 2` exceeds its length. -/
theorem C15_loop_past_end_counterexample :
    (LoadSampleHeaders Uninit.zero
      (LoadModuleHeader (FStream.ofBytes fileLoopPastEnd) Uninit.zero.mod).2.1
      (LoadModuleHeader (FStream.ofBytes fileLoopPastEnd) Uninit.zero.mod).2.2).1 = true ∧
    ∃ smp,
      (LoadSampleHeaders Uninit.zero
        (LoadModuleHeader (FStream.ofBytes fileLoopPastEnd) Uninit.zero.mod).2.1
        (LoadModuleHeader (FStream.ofBytes fileLoopPastEnd) Uninit.zero.mod).2.2).2.2.samples.get?
          0 = some smp ∧
      smp.length = 0 ∧ smp.loopstart = 0 ∧ smp.looplength = 2 ∧
      0 < smp.looplength ∧ ¬ (smp.loopstart + smp.looplength ≤ smp.length) := by
  obtain ⟨hok, smp, hsmp, hl, hls, hll, -⟩ :=
    sample_sizes_of_header Uninit.zero fileLoopPastEnd 0
      ((LoadModuleHeader_ok_iff fileLoopPastEnd Uninit.zero.mod).mpr fileLoopPastEnd_length)
      (by decide) ⟨rfl, rfl, rfl⟩
  rw [fileLoopPastEnd_words.1] at hl
  rw [fileLoopPastEnd_words.2.1] at hls
  rw [fileLoopPastEnd_words.2.2] at hll
  refine ⟨hok, smp, hsmp, hl, hls, hll, ?_, ?_⟩
  · rw [hll]; decide
  · rw [hl, hls, hll]; decide

/-! ### Active orders and the pattern count -/

set_option maxRecDepth 20000 in
/-- The order section used to test the active orders: order count 1, restart byte 0, the
active order byte 5, then 127 unused bytes 0. -/
theorem orderSection_active_five :
    (([5] ++ List.replicate 127 (0 : Byte)).take 128).take (1 : Byte).val = [5] ∧
    feedPatternCount 0
      ((([5] ++ List.replicate 127 (0 : Byte)).take 128).drop (1 : Byte).val) = 1 := by
  constructor <;> decide

set_option maxRecDepth 20000 in
theorem orderStage_active_five (mod : Module) :
    orderStage (FStream.ofBytes ([1, 0, 5] ++ List.replicate 127 (0 : Byte))) mod
      = .ok (true,
          { (FStream.ofBytes ([1, 0, 5] ++ List.replicate 127 (0 : Byte))) with pos := 130 },
          { mod with norders := 1, orders := [5], npatterns := max mod.npatterns 1 }) := by
  have h := orderStage_spec (FStream.ofBytes ([1, 0, 5] ++ List.replicate 127 (0 : Byte)))
    mod 1 0 ([5] ++ List.replicate 127 (0 : Byte)) rfl (by simp [FStream.ofBytes])
    (by simp only [List.length_append, List.length_replicate, List.length_cons,
          List.length_nil]; omega)
  rw [h, orderSection_active_five.1, feedPatternCount_eq_max, orderSection_active_five.2]
  rfl

/-- C14 (orders are pattern indices). On an order section with order count 1, active order
byte 5 and 127 unused bytes 0, the order stage succeeds with active order list `[5]` and
pattern count `max p 1`, `p` being what the uninitialised `mod.npatterns` held; when `p` is
at most 5 (for instance 0) the active order 5 is not below the pattern count. -/
theorem C14_active_order_not_below_pattern_count (mod : Module) :
    ∃ md' mod',
      orderStage (FStream.ofBytes ([1, 0, 5] ++ List.replicate 127 (0 : Byte))) mod
        = .ok (true, md', mod') ∧
      mod'.norders = 1 ∧ mod'.orders = [5] ∧ mod'.npatterns = max mod.npatterns 1 ∧
      (mod.npatterns ≤ 5 → ¬ ∀ o ∈ mod'.orders, o < mod'.npatterns) := by
  refine ⟨_, _, orderStage_active_five mod, rfl, rfl, rfl, ?_⟩
  intro hp hall
  have h5 := hall 5 (List.mem_singleton.mpr rfl)
  have h5' : 5 < max mod.npatterns 1 := h5
  omega

/-! ### From the header stage to the tag -/

theorem drop_two_cons (bs : List Byte) (pos : Nat) (h : pos + 2 ≤ bs.length) :
    ∃ a b rest, bs.drop pos = a :: b :: rest ∧ rest.length = bs.length - pos - 2 := by
  have h0 : pos < bs.length := by omega
  have h1 : pos + 1 < bs.length := by omega
  refine ⟨bs[pos], bs[pos + 1], bs.drop (pos + 1 + 1), ?_, ?_⟩
  · rw [List.drop_eq_getElem_cons h0, List.drop_eq_getElem_cons h1]
  · rw [List.length_drop]
    omega

/-- The order stage on a file of at least 1084 bytes, entered at offset 950: it returns 1
and leaves the stream good at offset 1080. -/
theorem orderStage_at_950 (bs : List Byte) (mod : Module) (h : 1084 ≤ bs.length) :
    ∃ mod', orderStage (FStream.atPos bs 950) mod = .ok (true, FStream.atPos bs 1080, mod') := by
  obtain ⟨n, restart, rest, hd, hr⟩ := drop_two_cons bs 950 (by omega)
  have hs := orderStage_spec (FStream.atPos bs 950) mod n restart rest rfl hd (by omega)
  exact ⟨_, hs⟩

/-- The tag stage on a file of at least 1084 bytes, entered at offset 1080: the four tag
bytes are read and the stream is left good at offset 1084. -/
theorem tagStage_at_1080 (bs : List Byte) (h : 1084 ≤ bs.length) :
    ∃ tag, tagStage (FStream.atPos bs 1080) = (true, FStream.atPos bs 1084, tag) := by
  have h4 : ((FStream.atPos bs 1080).getN 4).2 = FStream.atPos bs 1084 :=
    FStream.getN_of_le 4 _ rfl (by show 1080 + 4 ≤ bs.length; omega)
  refine ⟨String.mk (((FStream.atPos bs 1080).getN 4).1.map (fun g => charOf (toChar g))), ?_⟩
  unfold tagStage
  simp only [h4]
  rfl

theorem loads_up_to_tag (fuel : Nat) (u : Uninit) (verbosity : Verbosity) (bs : List Byte)
    (hh : (LoadModuleHeader (FStream.ofBytes bs) u.mod).1 = true) :
    1084 ≤ bs.length ∧
    ∃ mod1 mod2 mod3 tag,
      LoadModuleHeader (FStream.ofBytes bs) u.mod = (true, FStream.atPos bs 20, mod1) ∧
      mod1.nsamples = 31 ∧
      LoadSampleHeaders u (FStream.atPos bs 20) mod1 = (true, FStream.atPos bs 950, mod2) ∧
      orderStage (FStream.atPos bs 950) mod2 = .ok (true, FStream.atPos bs 1080, mod3) ∧
      tagStage (FStream.atPos bs 1080) = (true, FStream.atPos bs 1084, tag) ∧
      (loadstateOf (ModulePlayer.new fuel u (FStream.ofBytes bs) verbosity)
          = some .LOAD_FAILED_SAMPLE →
        ∃ md mod,
          patternStage fuel (resolveTag tag).nchannels (FStream.atPos bs 1084) mod3
            = .ok (true, md, mod) ∧
          (LoadSampleData md mod).1 = false) := by
  have hlen := (LoadModuleHeader_ok_iff bs u.mod).mp hh
  obtain ⟨name, samples, hn, hs, -⟩ := header_and_sample_headers u bs hlen
  obtain ⟨mod3, ho⟩ := orderStage_at_950 bs
    { u.mod with name := name, nsamples := 31, samples := samples } hlen
  obtain ⟨tag, ht⟩ := tagStage_at_1080 bs hlen
  refine ⟨hlen, _, _, mod3, tag, hn, rfl, hs, ho, ht, ?_⟩
  intro hfail
  have hlpo : LoadPatternsAndOrders fuel (FStream.atPos bs 950)
      { u.mod with name := name, nsamples := 31, samples := samples }
      = patternStage fuel (resolveTag tag).nchannels (FStream.atPos bs 1084) mod3 := by
    unfold LoadPatternsAndOrders
    simp only [ho, ht]
  unfold ModulePlayer.new at hfail
  simp only [hn, hs, hlpo] at hfail
  cases hps : patternStage fuel (resolveTag tag).nchannels (FStream.atPos bs 1084) mod3 with
  | error e =>
    rw [hps] at hfail
    cases hfail
  | ok r =>
    obtain ⟨ok, md, mod⟩ := r
    rw [hps] at hfail
    cases ok with
    | false => cases hfail
    | true =>
      refine ⟨md, mod, rfl, ?_⟩
      simp only at hfail
      rcases hd : LoadSampleData md mod with ⟨okd, mdd, modd⟩
      rw [hd] at hfail
      cases okd with
      | false => rfl
      | true =>
        exfalso
        simp only at hfail
        split at hfail
        · cases hfail
        · split at hfail <;> cases hfail

/-- C20 (what a successful header stage implies). When `LoadModuleHeader` returns 1 on a
byte stream, the stream holds at least 1084 bytes; the sample count is 31 and
`LoadSampleHeaders` returns 1, leaving the stream good at offset 950; the order stage reads
the order count, the restart byte and the 128 order bytes and leaves the stream good at
offset 1080; the four tag bytes are read and leave it good at offset 1084. So when the
constructor ends with `LOAD_FAILED_SAMPLE`, the pattern-cell stage has returned 1 and it is
`LoadSampleData` that returned 0. -/
theorem C20_header_success_covers_fixed_layout (fuel : Nat) (u : Uninit)
    (verbosity : Verbosity) (bs : List Byte)
    (hh : (LoadModuleHeader (FStream.ofBytes bs) u.mod).1 = true) :
    1084 ≤ bs.length ∧
    ∃ mod1 mod2 mod3 tag,
      LoadModuleHeader (FStream.ofBytes bs) u.mod = (true, FStream.atPos bs 20, mod1) ∧
      mod1.nsamples = 31 ∧
      LoadSampleHeaders u (FStream.atPos bs 20) mod1 = (true, FStream.atPos bs 950, mod2) ∧
      orderStage (FStream.atPos bs 950) mod2 = .ok (true, FStream.atPos bs 1080, mod3) ∧
      tagStage (FStream.atPos bs 1080) = (true, FStream.atPos bs 1084, tag) ∧
      (loadstateOf (ModulePlayer.new fuel u (FStream.ofBytes bs) verbosity)
          = some .LOAD_FAILED_SAMPLE →
        ∃ md mod,
          patternStage fuel (resolveTag tag).nchannels (FStream.atPos bs 1084) mod3
            = .ok (true, md, mod) ∧
          (LoadSampleData md mod).1 = false) :=
  loads_up_to_tag fuel u verbosity bs hh

/-- C20 on the file of 1084 zero bytes, the shortest file the header stage accepts. -/
theorem C20_header_success_covers_fixed_layout_witness :
    (LoadModuleHeader (FStream.ofBytes fileAllZero) Uninit.zero.mod).1 = true ∧
    1084 ≤ fileAllZero.length ∧
    ∃ mod1 mod2 mod3 tag,
      LoadModuleHeader (FStream.ofBytes fileAllZero) Uninit.zero.mod
        = (true, FStream.atPos fileAllZero 20, mod1) ∧
      mod1.nsamples = 31 ∧
      LoadSampleHeaders Uninit.zero (FStream.atPos fileAllZero 20) mod1
        = (true, FStream.atPos fileAllZero 950, mod2) ∧
      orderStage (FStream.atPos fileAllZero 950) mod2
        = .ok (true, FStream.atPos fileAllZero 1080, mod3) ∧
      tagStage (FStream.atPos fileAllZero 1080) = (true, FStream.atPos fileAllZero 1084, tag) ∧
      (loadstateOf (ModulePlayer.new 100 Uninit.zero (FStream.ofBytes fileAllZero) .MESSAGE)
          = some .LOAD_FAILED_SAMPLE →
        ∃ md mod,
          patternStage 100 (resolveTag tag).nchannels (FStream.atPos fileAllZero 1084) mod3
            = .ok (true, md, mod) ∧
          (LoadSampleData md mod).1 = false) :=
  ⟨(LoadModuleHeader_ok_iff fileAllZero Uninit.zero.mod).mpr fileAllZero_length,
    C20_header_success_covers_fixed_layout 100 Uninit.zero .MESSAGE fileAllZero
      ((LoadModuleHeader_ok_iff fileAllZero Uninit.zero.mod).mpr fileAllZero_length)⟩

/-! ### Runs of the whole constructor -/

theorem fileSampleDataMissing_length : fileSampleDataMissing.length = 1084 := by
  unfold fileSampleDataMissing
  simp only [List.length_append, List.length_replicate, List.length_cons, List.length_nil]

set_option maxRecDepth 100000 in
theorem fileSampleDataMissing_orders :
    fileSampleDataMissing.drop 950 = 128 :: 0 :: List.replicate 132 0 := by
  decide!

set_option maxRecDepth 100000 in
theorem fileSampleDataMissing_sample_zero :
    (readSampleHeader (FStream.atPos fileSampleDataMissing (20 + 30 * 0))
      (Uninit.zero.sample 0)).1.length = 2 := by
  decide!

theorem sampleDataLoop_fails_at_end (k : Nat) (bs : List Byte) (samples : List Sample)
    (smp : Sample) (h0 : samples.get? 0 = some smp) (hl : smp.length ≠ 0) :
    (sampleDataLoop (k + 1) 0 (FStream.atPos bs bs.length) samples).1 = false := by
  rw [sampleDataLoop, h0]
  simp only [if_neg hl]
  have hr : ((FStream.atPos bs bs.length).read smp.length).2.good = false := by
    unfold FStream.read FStream.atPos
    simp only [FStream.good, Bool.not_false, Bool.and_self, if_true, List.drop_length,
      List.take_nil, List.length_nil]
    rw [if_neg (fun h => hl h.symm)]
    rfl
  rw [if_pos (by simp [hr])]

theorem patternStage_no_patterns (fuel nchannels : Nat) (md : FStream) (mod : Module)
    (h : mod.npatterns = 0) :
    patternStage (fuel + 1) nchannels md mod
      = .ok (md.good, md, { mod with patterns := [] }) := by
  unfold patternStage
  rw [patternLoop, if_neg (by omega)]

/-- A file of 1084 bytes whose order count is 128 and whose sample 0 has a length other than
0, loaded when the uninitialised pattern count holds 0: all 128 orders are active, the
pattern count stays 0, the pattern-cell stage has nothing to read, and `LoadSampleData`
finds no byte of sample 0 after the tag; the constructor ends with `LOAD_FAILED_SAMPLE`. -/
theorem new_fails_at_sample_data (fuel : Nat) (u : Uninit) (verbosity : Verbosity)
    (bs rest : List Byte) (restart : Byte) (hlen : bs.length = 1084)
    (hord : bs.drop 950 = 128 :: restart :: rest) (hnp : u.mod.npatterns = 0)
    (hs0 : (readSampleHeader (FStream.atPos bs (20 + 30 * 0)) (u.sample 0)).1.length ≠ 0) :
    loadstateOf (ModulePlayer.new (fuel + 1) u (FStream.ofBytes bs) verbosity)
      = some .LOAD_FAILED_SAMPLE := by
  have hlen' : 1084 ≤ bs.length := by omega
  have hrest : 128 ≤ rest.length := by
    have h := congrArg List.length hord
    simp only [List.length_drop, List.length_cons] at h
    omega
  obtain ⟨name, samples, hn, hs, hj⟩ := header_and_sample_headers u bs hlen'
  have ho := orderStage_spec (FStream.atPos bs 950)
    { u.mod with name := name, nsamples := 31, samples := samples }
    128 restart rest rfl hord hrest
  have hdrop : (rest.take 128).drop (128 : Byte).val = [] := by
    apply List.drop_eq_nil_of_le
    rw [List.length_take]
    exact Nat.min_le_left _ _
  rw [hdrop] at ho
  have ho' : orderStage (FStream.atPos bs 950)
      { u.mod with name := name, nsamples := 31, samples := samples }
      = .ok (true, FStream.atPos bs 1080,
          { u.mod with
            name := name, nsamples := 31, samples := samples, norders := 128
            orders := ((rest.take 128).take 128).map (fun b => b.val) }) := ho
  obtain ⟨tag, ht⟩ := tagStage_at_1080 bs hlen'
  have hlpo : LoadPatternsAndOrders (fuel + 1) (FStream.atPos bs 950)
      { u.mod with name := name, nsamples := 31, samples := samples }
      = .ok (true, FStream.atPos bs 1084,
          { u.mod with
            name := name, nsamples := 31, samples := samples, norders := 128
            orders := ((rest.take 128).take 128).map (fun b => b.val)
            patterns := [] }) := by
    unfold LoadPatternsAndOrders
    simp only [ho', ht]
    exact patternStage_no_patterns fuel _ _ _ hnp
  have hsd : (sampleDataLoop 31 0 (FStream.atPos bs 1084) samples).1 = false := by
    rw [← hlen]
    exact sampleDataLoop_fails_at_end 30 bs samples _ (hj 0 (by omega)) hs0
  unfold ModulePlayer.new
  simp only [hn, hs, hlpo]
  rcases hd : LoadSampleData (FStream.atPos bs 1084)
      { u.mod with
        name := name, nsamples := 31, samples := samples, norders := 128
        orders := ((rest.take 128).take 128).map (fun b => b.val)
        patterns := [] } with ⟨okd, mdd, modd⟩
  have hokd : okd = false := by
    have h := congrArg Prod.fst hd
    simp only [LoadSampleData] at h
    rw [hsd] at h
    exact h.symm
  subst hokd
  rfl

/-- The constructor can end with `LOAD_FAILED_SAMPLE`: it does on `fileSampleDataMissing`
when the uninitialised storage holds zeros. -/
theorem sample_data_failure_reachable :
    loadstateOf (ModulePlayer.new 1 Uninit.zero (FStream.ofBytes fileSampleDataMissing) .MESSAGE)
      = some .LOAD_FAILED_SAMPLE :=
  new_fails_at_sample_data 0 Uninit.zero .MESSAGE fileSampleDataMissing
    (List.replicate 132 0) 0 fileSampleDataMissing_length fileSampleDataMissing_orders rfl
    (by rw [fileSampleDataMissing_sample_zero]; omega)

/-- A load that failed in the header stage, followed by `playModule`, with verbosity
`NONE`: the constructor ends with `LOAD_FAILED_HEADER` and `playModule` returns `PLAY_OK`. -/
theorem playModule_after_failed_load (fuel : Nat) (u : Uninit) (bs : List Byte)
    (h : bs.length < 1084) :
    ∃ p, ModulePlayer.new fuel u (FStream.ofBytes bs) .NONE = .ok p ∧
      p.loadstate = .LOAD_FAILED_HEADER ∧ (playModule p).2 = .PLAY_OK := by
  have hh := LoadModuleHeader_short bs u.mod h
  rcases hr : LoadModuleHeader (FStream.ofBytes bs) u.mod with ⟨ok, md, mod⟩
  rw [hr] at hh
  simp only at hh
  subst hh
  refine ⟨⟨.NONE, {}, .LOAD_FAILED_HEADER, mod⟩, ?_, rfl, ?_⟩
  · unfold ModulePlayer.new
    rw [hr]
  · rw [playModule_returns]
    rfl

end Modplay
